import Mathlib

/-!
Verification of the PublicAI staking vault contract (src/src/lib.rs).

The contract is a NEP-141 staking ledger on NEAR.  We give a shallow
embedding of its state and entry points:

* `ContractState` mirrors `StakingContract`; the two `UnorderedMap`s are
  modelled as association lists over `Nat` account ids.
* Each entry point is a Lean function from the pre-state (plus call
  context: predecessor, attached deposit, block timestamp) to a `Raw`
  outcome: either `Raw.ok` with the post-state and return value, or
  `Raw.panic` with the error and the in-memory state at the panic point.
  On NEAR a panic aborts the receipt and reverts all of its state writes,
  so the durable effect of a panicking call is the unchanged pre-state;
  the `*_exec` wrappers apply that revert semantics.  Keeping the
  at-panic state in `Raw.panic` lets us reason about the order of
  mutations inside a call body as well.
* `u64`/`u128` arithmetic is modelled on `Nat` with explicit overflow
  and underflow panics at the additions and subtractions the source
  performs, matching the `overflow-checks = true` release profile that
  NEAR contracts are built with.
* `unstake` schedules a callback (`on_ft_transfer_then_remove`) through a
  promise; the embedding returns the scheduled callback arguments as a
  `PendingCb` value, and the trace model (`Model`, `Step`, `Reachable`)
  keeps the multiset of in-flight callbacks, delivering each at most once.
-/

namespace PublicaiVault

/-- Per-account stake record (`StakeInfo` in the source): principal
amount (u128) and the start timestamp in seconds (u64). -/
structure StakeInfo where
  amount : Nat
  start_time : Nat
  deriving DecidableEq

/-- Derived view returned by `user_staked` (`UserStakeInfo` in the source). -/
structure UserStakeInfo where
  staked : Bool
  amount : Nat
  start_time : Nat
  deriving DecidableEq

/-- Per-account operation lock (`UserOperationState` in the source). -/
inductive UserOperationState where
  | Idle
  | Staking
  | Unstaking
  deriving DecidableEq

/-- Account ids are abstracted as natural numbers. -/
abbrev AccountId := Nat

/-- Lookup in an association list (models `UnorderedMap::get`). -/
def mfind {α : Type} : List (AccountId × α) → AccountId → Option α
  | [], _ => none
  | (k', v) :: t, k => if k' = k then some v else mfind t k

/-- Insert-or-replace in an association list (models `UnorderedMap::insert`). -/
def minsert {α : Type} : List (AccountId × α) → AccountId → α → List (AccountId × α)
  | [], k, v => [(k, v)]
  | (k', v') :: t, k, v => if k' = k then (k, v) :: t else (k', v') :: minsert t k v

/-- Remove a key from an association list (models `UnorderedMap::remove`). -/
def mremove {α : Type} : List (AccountId × α) → AccountId → List (AccountId × α)
  | [], _ => []
  | (k', v') :: t, k => if k' = k then t else (k', v') :: mremove t k

/-- The keys of an association list. -/
def mkeys {α : Type} (l : List (AccountId × α)) : List AccountId := l.map Prod.fst

theorem mfind_minsert_self {α : Type} (l : List (AccountId × α)) (k : AccountId) (v : α) :
    mfind (minsert l k v) k = some v := by
  induction l with
  | nil => simp [minsert, mfind]
  | cons hd t ih =>
    by_cases h : hd.1 = k
    · simp [minsert, h, mfind]
    · simp [minsert, h, mfind, ih]

theorem mfind_minsert_ne {α : Type} (l : List (AccountId × α)) {k k' : AccountId} (v : α)
    (h : k' ≠ k) : mfind (minsert l k v) k' = mfind l k' := by
  have hkk : ¬k = k' := fun hh => h hh.symm
  induction l with
  | nil => simp [minsert, mfind, hkk]
  | cons hd t ih =>
    by_cases hk : hd.1 = k
    · have hk' : ¬hd.1 = k' := by rw [hk]; exact hkk
      simp [minsert, hk, mfind, hkk, hk']
    · by_cases hk' : hd.1 = k'
      · simp [minsert, hk, mfind, hk', h]
      · simp [minsert, hk, mfind, hk', ih]

theorem mfind_mremove_ne {α : Type} (l : List (AccountId × α)) {k k' : AccountId}
    (h : k' ≠ k) : mfind (mremove l k) k' = mfind l k' := by
  have hkk : ¬k = k' := fun hh => h hh.symm
  induction l with
  | nil => simp [mremove]
  | cons hd t ih =>
    by_cases hk : hd.1 = k
    · have hk' : ¬hd.1 = k' := by rw [hk]; exact hkk
      simp [mremove, hk, mfind, hk', hkk]
    · by_cases hk' : hd.1 = k'
      · simp [mremove, hk, mfind, hk', h]
      · simp [mremove, hk, mfind, hk', ih]

theorem mfind_eq_none_iff {α : Type} {l : List (AccountId × α)} {k : AccountId} :
    mfind l k = none ↔ k ∉ mkeys l := by
  induction l with
  | nil => simp [mfind, mkeys]
  | cons hd t ih =>
    by_cases h : hd.1 = k
    · constructor
      · intro hc
        rw [mfind] at hc
        simp only [h, if_pos rfl] at hc
        exact Option.noConfusion hc
      · intro hc
        exfalso
        apply hc
        simp only [mkeys, List.map_cons, h]
        exact List.mem_cons_self _ _
    · rw [mfind, if_neg h, ih]
      simp only [mkeys, List.map_cons, List.mem_cons]
      constructor
      · intro hn hc
        rcases hc with hc | hc
        · exact h hc.symm
        · exact hn hc
      · exact fun hn hm => hn (Or.inr hm)

theorem mfind_mremove_self {α : Type} {l : List (AccountId × α)} {k : AccountId}
    (h : (mkeys l).Nodup) : mfind (mremove l k) k = none := by
  induction l with
  | nil => simp [mremove, mfind]
  | cons hd t ih =>
    by_cases hk : hd.1 = k
    · rw [mremove]
      simp only [hk, if_true]
      rw [mfind_eq_none_iff]
      rw [mkeys, List.map_cons, List.nodup_cons] at h
      rw [← hk]
      exact fun hm => h.1 hm
    · rw [mremove]
      simp only [hk, if_false]
      rw [mfind]
      simp only [hk, if_false]
      rw [mkeys, List.map_cons, List.nodup_cons] at h
      exact ih h.2

theorem mkeys_minsert_found {α : Type} {l : List (AccountId × α)} {k : AccountId} {v : α}
    (h : mfind l k = some v) (w : α) : mkeys (minsert l k w) = mkeys l := by
  induction l with
  | nil => simp [mfind] at h
  | cons hd t ih =>
    by_cases hk : hd.1 = k
    · simp [minsert, hk, mkeys]
    · rw [mfind] at h
      simp only [hk, if_false] at h
      simp [minsert, hk, mkeys] at ih ⊢
      exact ih h

theorem mkeys_minsert_none {α : Type} {l : List (AccountId × α)} {k : AccountId}
    (h : mfind l k = none) (v : α) : mkeys (minsert l k v) = mkeys l ++ [k] := by
  induction l with
  | nil => simp [minsert, mkeys]
  | cons hd t ih =>
    rw [mfind] at h
    by_cases hk : hd.1 = k
    · simp [hk] at h
    · simp only [hk, if_false] at h
      simp [minsert, hk, mkeys] at ih ⊢
      exact ih h

theorem mkeys_nodup_minsert {α : Type} {l : List (AccountId × α)} (k : AccountId) (v : α)
    (h : (mkeys l).Nodup) : (mkeys (minsert l k v)).Nodup := by
  cases hf : mfind l k with
  | none =>
    rw [mkeys_minsert_none hf]
    rw [List.nodup_append]
    refine ⟨h, List.nodup_singleton k, ?_⟩
    intro a ha hb
    rw [List.mem_singleton] at hb
    subst hb
    exact (mfind_eq_none_iff.mp hf) ha
  | some w => rw [mkeys_minsert_found hf]; exact h

theorem mem_mkeys_mremove {α : Type} {l : List (AccountId × α)} {k a : AccountId}
    (h : a ∈ mkeys (mremove l k)) : a ∈ mkeys l := by
  induction l with
  | nil => simpa [mremove] using h
  | cons hd t ih =>
    by_cases hk : hd.1 = k
    · rw [mremove] at h
      simp only [hk, if_true] at h
      rw [mkeys, List.map_cons]
      exact List.mem_cons_of_mem _ h
    · rw [mremove] at h
      simp only [hk, if_false] at h
      rw [mkeys, List.map_cons] at h ⊢
      rcases List.mem_cons.mp h with h1 | h2
      · exact List.mem_cons.mpr (Or.inl h1)
      · exact List.mem_cons.mpr (Or.inr (ih h2))

theorem mkeys_nodup_mremove {α : Type} {l : List (AccountId × α)} (k : AccountId)
    (h : (mkeys l).Nodup) : (mkeys (mremove l k)).Nodup := by
  induction l with
  | nil => simpa [mremove] using h
  | cons hd t ih =>
    rw [mkeys, List.map_cons, List.nodup_cons] at h
    by_cases hk : hd.1 = k
    · rw [mremove]
      simp only [hk, if_true]
      exact h.2
    · rw [mremove]
      simp only [hk, if_false]
      rw [mkeys, List.map_cons, List.nodup_cons]
      exact ⟨fun hm => h.1 (mem_mkeys_mremove hm), ih h.2⟩

theorem mem_minsert {α : Type} {l : List (AccountId × α)} {k : AccountId} {v : α}
    {e : AccountId × α} (h : e ∈ minsert l k v) : e = (k, v) ∨ e ∈ l := by
  induction l with
  | nil =>
    rw [minsert, List.mem_singleton] at h
    exact Or.inl h
  | cons hd t ih =>
    by_cases hk : hd.1 = k
    · rw [minsert] at h
      simp only [hk, if_true] at h
      rcases List.mem_cons.mp h with h1 | h2
      · exact Or.inl h1
      · exact Or.inr (List.mem_cons_of_mem _ h2)
    · rw [minsert] at h
      simp only [hk, if_false] at h
      rcases List.mem_cons.mp h with h1 | h2
      · exact Or.inr (List.mem_cons.mpr (Or.inl h1))
      · rcases ih h2 with h3 | h4
        · exact Or.inl h3
        · exact Or.inr (List.mem_cons_of_mem _ h4)

theorem mem_mremove {α : Type} {l : List (AccountId × α)} {k : AccountId}
    {e : AccountId × α} (h : e ∈ mremove l k) : e ∈ l := by
  induction l with
  | nil => simp [mremove] at h
  | cons hd t ih =>
    by_cases hk : hd.1 = k
    · rw [mremove] at h
      simp only [hk, if_true] at h
      exact List.mem_cons_of_mem _ h
    · rw [mremove] at h
      simp only [hk, if_false] at h
      rcases List.mem_cons.mp h with h1 | h2
      · exact List.mem_cons.mpr (Or.inl h1)
      · exact List.mem_cons_of_mem _ (ih h2)

theorem length_minsert_found {α : Type} {l : List (AccountId × α)} {k : AccountId} {v : α}
    (h : mfind l k = some v) (w : α) : (minsert l k w).length = l.length := by
  have := mkeys_minsert_found h w
  have h1 : (mkeys (minsert l k w)).length = (mkeys l).length := by rw [this]
  simpa [mkeys] using h1

theorem length_minsert_none {α : Type} {l : List (AccountId × α)} {k : AccountId}
    (h : mfind l k = none) (v : α) : (minsert l k v).length = l.length + 1 := by
  have := mkeys_minsert_none h v
  have h1 : (mkeys (minsert l k v)).length = (mkeys l ++ [k]).length := by rw [this]
  simpa [mkeys] using h1

theorem length_mremove_found {α : Type} {l : List (AccountId × α)} {k : AccountId} {v : α}
    (h : mfind l k = some v) : (mremove l k).length + 1 = l.length := by
  induction l with
  | nil => simp [mfind] at h
  | cons hd t ih =>
    by_cases hk : hd.1 = k
    · rw [mremove]
      simp [hk]
    · rw [mfind] at h
      simp only [hk, if_false] at h
      rw [mremove]
      simp only [hk, if_false, List.length_cons]
      rw [ih h]

/-- Sum of the recorded amounts over all stake records in the ledger. -/
def sumAmounts (l : List (AccountId × StakeInfo)) : Nat :=
  (l.map (fun e => e.2.amount)).sum

theorem sumAmounts_minsert_found {l : List (AccountId × StakeInfo)} {k : AccountId}
    {v : StakeInfo} (h : mfind l k = some v) (w : StakeInfo) :
    sumAmounts (minsert l k w) + v.amount = sumAmounts l + w.amount := by
  induction l with
  | nil => simp [mfind] at h
  | cons hd t ih =>
    obtain ⟨k1, v1⟩ := hd
    by_cases hk : k1 = k
    · rw [mfind, if_pos hk, Option.some_inj] at h
      rw [minsert, if_pos hk, h]
      simp only [sumAmounts, List.map_cons, List.sum_cons]
      omega
    · rw [mfind, if_neg hk] at h
      rw [minsert, if_neg hk]
      have := ih h
      simp only [sumAmounts, List.map_cons, List.sum_cons] at this ⊢
      omega

theorem sumAmounts_minsert_none {l : List (AccountId × StakeInfo)} {k : AccountId}
    (h : mfind l k = none) (w : StakeInfo) :
    sumAmounts (minsert l k w) = sumAmounts l + w.amount := by
  induction l with
  | nil => simp [minsert, sumAmounts]
  | cons hd t ih =>
    obtain ⟨k1, v1⟩ := hd
    by_cases hk : k1 = k
    · rw [mfind, if_pos hk] at h
      exact Option.noConfusion h
    · rw [mfind, if_neg hk] at h
      rw [minsert, if_neg hk]
      have := ih h
      simp only [sumAmounts, List.map_cons, List.sum_cons] at this ⊢
      omega

theorem sumAmounts_mremove_found {l : List (AccountId × StakeInfo)} {k : AccountId}
    {v : StakeInfo} (h : mfind l k = some v) :
    sumAmounts (mremove l k) + v.amount = sumAmounts l := by
  induction l with
  | nil => simp [mfind] at h
  | cons hd t ih =>
    obtain ⟨k1, v1⟩ := hd
    by_cases hk : k1 = k
    · rw [mfind, if_pos hk, Option.some_inj] at h
      rw [mremove, if_pos hk, ← h]
      simp only [sumAmounts, List.map_cons, List.sum_cons]
      omega
    · rw [mfind, if_neg hk] at h
      rw [mremove, if_neg hk]
      have := ih h
      simp only [sumAmounts, List.map_cons, List.sum_cons] at this ⊢
      omega

/-- Number of seconds in a week (`WEEK` in the source). -/
def WEEK : Nat := 7 * 24 * 60 * 60

/-- Default required stake amount, 100 PUBLIC (`STAKE_AMOUNT` in the source). -/
def STAKE_AMOUNT : Nat := 100000000000000000000

/-- Nanoseconds per second (`NANOSECONDS` in the source). -/
def NANOSECONDS : Nat := 1000000000

/-- One more than the largest u64 value. -/
def U64MOD : Nat := 2 ^ 64

/-- One more than the largest u128 value. -/
def U128MOD : Nat := 2 ^ 128

/-- The durable contract state (`StakingContract` in the source).  The two
`UnorderedMap`s are modelled as association lists. -/
structure ContractState where
  owner_id : AccountId
  token_contract : AccountId
  staked_balances : List (AccountId × StakeInfo)
  user_states : List (AccountId × UserOperationState)
  stake_amount : Nat
  lock_duration : Nat
  stake_paused : Bool
  total_staked : Nat
  total_user : Nat
  deriving DecidableEq

/-- Outcome of running one entry point body: `ok` carries the post-state and
return value; `panic` carries the error and the in-memory state at the point
the panic fired.  On NEAR a panic aborts the receipt, so the at-panic state is
never persisted — the `*_exec` wrappers below discard it. -/
inductive Raw (ε ρ : Type) where
  | ok (s : ContractState) (r : ρ)
  | panic (e : ε) (s : ContractState)
  deriving DecidableEq

/-- Arguments of the `on_ft_transfer_then_remove` callback scheduled by
`unstake` through the promise chain. -/
structure PendingCb where
  account_id : AccountId
  amount : Nat
  start_time : Nat
  deriving DecidableEq

/-- Panic causes of `ft_on_transfer`. -/
inductive DepositErr where
  | wrongToken
  | paused
  | stakingInProgress
  | unstakingInProgress
  | addOverflow
  | wrongAmount
  | userCountOverflow
  | totalStakedOverflow
  deriving DecidableEq

/-- Panic causes of `unstake`. -/
inductive UnstakeErr where
  | noDeposit
  | noStake
  | stakingInProgress
  | unstakingInProgress
  | timeOverflow
  | notYet
  deriving DecidableEq

/-- Panic causes of `on_ft_transfer_then_remove`. -/
inductive CallbackErr where
  | totalStakedUnderflow
  | totalUserUnderflow
  deriving DecidableEq

/-- Panic causes of the owner-gated admin entry points. -/
inductive AdminErr where
  | noDeposit
  | notOwner
  | zeroAmount
  deriving DecidableEq

/-- `StakingContract::new`: the freshly initialized contract state. -/
def StakingContract.new (owner_id token_contract : AccountId) : ContractState :=
  { owner_id := owner_id
    token_contract := token_contract
    staked_balances := []
    user_states := []
    stake_paused := false
    lock_duration := 2 * WEEK
    stake_amount := STAKE_AMOUNT
    total_staked := 0
    total_user := 0 }

/-- `ft_on_transfer` body (lines 278-339 of the source).  Call context:
`predecessor` is the calling contract (must be the token contract),
`sender_id`/`amount` are the transfer arguments, `block_timestamp` is the
block time in nanoseconds.  The u128 addition `base_amount + inc_amount`,
the u64 `total_user + 1` and the u128 `total_staked + inc_amount` panic on
overflow (overflow-checks build).  Returns the unused amount (always 0 on
success, meaning the transfer is fully accepted). -/
def ft_on_transfer (s : ContractState) (predecessor sender_id amount block_timestamp : Nat) :
    Raw DepositErr Nat :=
  if predecessor ≠ s.token_contract then Raw.panic DepositErr.wrongToken s
  else if s.stake_paused = true then Raw.panic DepositErr.paused s
  else if mfind s.user_states sender_id = some UserOperationState.Staking then
    Raw.panic DepositErr.stakingInProgress s
  else if mfind s.user_states sender_id = some UserOperationState.Unstaking then
    Raw.panic DepositErr.unstakingInProgress s
  else
    let s1 : ContractState :=
      { s with user_states := minsert s.user_states sender_id UserOperationState.Staking }
    let current_time := block_timestamp / NANOSECONDS
    let stake_info :=
      (mfind s1.staked_balances sender_id).getD { amount := 0, start_time := current_time }
    let base_amount := stake_info.amount
    let inc_amount := amount
    if U128MOD ≤ base_amount + inc_amount then Raw.panic DepositErr.addOverflow s1
    else if base_amount + inc_amount ≠ s1.stake_amount then Raw.panic DepositErr.wrongAmount s1
    else if base_amount = 0 ∧ U64MOD ≤ s1.total_user + 1 then
      Raw.panic DepositErr.userCountOverflow s1
    else
      let s2 : ContractState :=
        if base_amount = 0 then { s1 with total_user := s1.total_user + 1 } else s1
      let new_info : StakeInfo := { amount := base_amount + inc_amount, start_time := current_time }
      let s3 : ContractState :=
        { s2 with staked_balances := minsert s2.staked_balances sender_id new_info }
      if U128MOD ≤ s3.total_staked + inc_amount then Raw.panic DepositErr.totalStakedOverflow s3
      else
        Raw.ok
          { s3 with
            total_staked := s3.total_staked + inc_amount
            user_states := minsert s3.user_states sender_id UserOperationState.Idle } 0

/-- `unstake` body (lines 126-184 of the source).  Call context:
`account_id` is the predecessor (the staker), `attached_deposit` must be
exactly 1 yoctoNEAR, `block_timestamp` is the block time in nanoseconds.
The u64 addition `start_time + lock_duration` in the timing check panics on
overflow.  On success the stake record is removed optimistically, the
outbound `ft_transfer` promise is issued, and the scheduled callback
arguments are returned as a `PendingCb` together with the payout. -/
def unstake (s : ContractState) (account_id attached_deposit block_timestamp : Nat) :
    Raw UnstakeErr (PendingCb × Nat) :=
  if attached_deposit ≠ 1 then Raw.panic UnstakeErr.noDeposit s
  else
    match mfind s.staked_balances account_id with
    | none => Raw.panic UnstakeErr.noStake s
    | some stake_info =>
      if mfind s.user_states account_id = some UserOperationState.Staking then
        Raw.panic UnstakeErr.stakingInProgress s
      else if mfind s.user_states account_id = some UserOperationState.Unstaking then
        Raw.panic UnstakeErr.unstakingInProgress s
      else
        let s1 : ContractState :=
          { s with user_states := minsert s.user_states account_id UserOperationState.Unstaking }
        let current_time := block_timestamp / NANOSECONDS
        if U64MOD ≤ stake_info.start_time + s1.lock_duration then
          Raw.panic UnstakeErr.timeOverflow s1
        else if current_time < stake_info.start_time + s1.lock_duration then
          Raw.panic UnstakeErr.notYet s1
        else
          Raw.ok
            { s1 with staked_balances := mremove s1.staked_balances account_id }
            ({ account_id := account_id
               amount := stake_info.amount
               start_time := stake_info.start_time }, stake_info.amount)

/-- `on_ft_transfer_then_remove` body (lines 188-214 of the source).
`call_result` is `true` when the outbound `ft_transfer` promise succeeded.
The u128 subtraction `total_staked - stake_amount` and the u64 subtraction
`total_user - 1` panic on underflow. -/
def on_ft_transfer_then_remove (s : ContractState)
    (account_id stake_amount start_time : Nat) (call_result : Bool) :
    Raw CallbackErr Bool :=
  if call_result then
    if s.total_staked < stake_amount then Raw.panic CallbackErr.totalStakedUnderflow s
    else if s.total_user < 1 then
      Raw.panic CallbackErr.totalUserUnderflow
        { s with total_staked := s.total_staked - stake_amount }
    else
      Raw.ok
        { s with
          total_staked := s.total_staked - stake_amount
          total_user := s.total_user - 1
          user_states := minsert s.user_states account_id UserOperationState.Idle } true
  else
    Raw.ok
      { s with
        staked_balances :=
          minsert s.staked_balances account_id { amount := stake_amount, start_time := start_time }
        user_states := minsert s.user_states account_id UserOperationState.Idle } false

/-- `pause_stake` (lines 71-80 of the source). -/
def pause_stake (s : ContractState) (predecessor attached_deposit : Nat) (pause : Bool) :
    Raw AdminErr Unit :=
  if attached_deposit ≠ 1 then Raw.panic AdminErr.noDeposit s
  else if s.owner_id ≠ predecessor then Raw.panic AdminErr.notOwner s
  else Raw.ok { s with stake_paused := pause } ()

/-- `set_lock_duration` (lines 85-94 of the source): accepts any u64 value. -/
def set_lock_duration (s : ContractState) (predecessor attached_deposit lock_duration : Nat) :
    Raw AdminErr Unit :=
  if attached_deposit ≠ 1 then Raw.panic AdminErr.noDeposit s
  else if s.owner_id ≠ predecessor then Raw.panic AdminErr.notOwner s
  else Raw.ok { s with lock_duration := lock_duration } ()

/-- `set_stake_amount` (lines 112-123 of the source): requires a positive amount. -/
def set_stake_amount (s : ContractState) (predecessor attached_deposit stake_amount : Nat) :
    Raw AdminErr Unit :=
  if attached_deposit ≠ 1 then Raw.panic AdminErr.noDeposit s
  else if s.owner_id ≠ predecessor then Raw.panic AdminErr.notOwner s
  else if stake_amount = 0 then Raw.panic AdminErr.zeroAmount s
  else Raw.ok { s with stake_amount := stake_amount } ()

/-- `get_stake_info` (lines 217-219 of the source). -/
def get_stake_info (s : ContractState) (account_id : AccountId) : Option StakeInfo :=
  mfind s.staked_balances account_id

/-- `user_staked` (lines 245-257 of the source): derived is-staked view. -/
def user_staked (s : ContractState) (account_id : AccountId) : UserStakeInfo :=
  match mfind s.staked_balances account_id with
  | none => { staked := false, amount := 0, start_time := 0 }
  | some stake_info =>
    { staked := decide (s.stake_amount ≤ stake_info.amount)
      amount := stake_info.amount
      start_time := stake_info.start_time }

/-- Observable (durable) result of an `ft_on_transfer` receipt: a panic
reverts every state write of the receipt, so only the error survives. -/
def ft_on_transfer_exec (s : ContractState) (predecessor sender_id amount block_timestamp : Nat) :
    Except DepositErr (ContractState × Nat) :=
  match ft_on_transfer s predecessor sender_id amount block_timestamp with
  | Raw.ok s1 r => Except.ok (s1, r)
  | Raw.panic e _ => Except.error e

/-- Observable (durable) result of an `unstake` receipt (revert on panic). -/
def unstake_exec (s : ContractState) (account_id attached_deposit block_timestamp : Nat) :
    Except UnstakeErr (ContractState × PendingCb × Nat) :=
  match unstake s account_id attached_deposit block_timestamp with
  | Raw.ok s1 r => Except.ok (s1, r)
  | Raw.panic e _ => Except.error e

/-- Durable post-state of an `ft_on_transfer` receipt: the panic branch
keeps the pre-state (NEAR reverts the receipt's writes). -/
def apply_ft_on_transfer (s : ContractState)
    (predecessor sender_id amount block_timestamp : Nat) : ContractState :=
  match ft_on_transfer s predecessor sender_id amount block_timestamp with
  | Raw.ok s1 _ => s1
  | Raw.panic _ _ => s

/-- Durable post-state of an `unstake` receipt (revert on panic). -/
def apply_unstake (s : ContractState) (account_id attached_deposit block_timestamp : Nat) :
    ContractState :=
  match unstake s account_id attached_deposit block_timestamp with
  | Raw.ok s1 _ => s1
  | Raw.panic _ _ => s

/-- The existing recorded amount a deposit builds on: the stored record's
amount, or 0 when the account has no record (`unwrap_or` default). -/
def depositBase (s : ContractState) (sender_id block_timestamp : Nat) : Nat :=
  ((mfind s.staked_balances sender_id).getD
    { amount := 0, start_time := block_timestamp / NANOSECONDS }).amount

/-- The post-state of a successful `ft_on_transfer`, written out explicitly
(proved equal to what the body produces in `ft_on_transfer_ok_inv`). -/
def deposit_result (s : ContractState) (sender_id amount block_timestamp : Nat) : ContractState :=
  { s with
    user_states :=
      minsert (minsert s.user_states sender_id UserOperationState.Staking) sender_id
        UserOperationState.Idle
    staked_balances :=
      minsert s.staked_balances sender_id
        { amount := depositBase s sender_id block_timestamp + amount
          start_time := block_timestamp / NANOSECONDS }
    total_user :=
      if depositBase s sender_id block_timestamp = 0 then s.total_user + 1 else s.total_user
    total_staked := s.total_staked + amount }

theorem ft_on_transfer_ok_inv {s s' : ContractState}
    {predecessor sender_id amount block_timestamp r : Nat}
    (h : ft_on_transfer s predecessor sender_id amount block_timestamp = Raw.ok s' r) :
    predecessor = s.token_contract ∧
    s.stake_paused = false ∧
    mfind s.user_states sender_id ≠ some UserOperationState.Staking ∧
    mfind s.user_states sender_id ≠ some UserOperationState.Unstaking ∧
    depositBase s sender_id block_timestamp + amount < U128MOD ∧
    depositBase s sender_id block_timestamp + amount = s.stake_amount ∧
    s.total_staked + amount < U128MOD ∧
    s' = deposit_result s sender_id amount block_timestamp ∧
    r = 0 := by
  simp only [ft_on_transfer] at h
  have hb : depositBase s sender_id block_timestamp =
      ((mfind s.staked_balances sender_id).getD
        { amount := 0, start_time := block_timestamp / NANOSECONDS }).amount := rfl
  rw [← hb] at h
  by_cases h1 : predecessor ≠ s.token_contract
  · rw [if_pos h1] at h
    exact Raw.noConfusion h
  rw [if_neg h1] at h
  by_cases h2 : s.stake_paused = true
  · rw [if_pos h2] at h
    exact Raw.noConfusion h
  rw [if_neg h2] at h
  by_cases h3 : mfind s.user_states sender_id = some UserOperationState.Staking
  · rw [if_pos h3] at h
    exact Raw.noConfusion h
  rw [if_neg h3] at h
  by_cases h4 : mfind s.user_states sender_id = some UserOperationState.Unstaking
  · rw [if_pos h4] at h
    exact Raw.noConfusion h
  rw [if_neg h4] at h
  by_cases h5 : U128MOD ≤ depositBase s sender_id block_timestamp + amount
  · rw [if_pos h5] at h
    exact Raw.noConfusion h
  rw [if_neg h5] at h
  by_cases h6 : depositBase s sender_id block_timestamp + amount ≠ s.stake_amount
  · rw [if_pos h6] at h
    exact Raw.noConfusion h
  rw [if_neg h6] at h
  by_cases h7 : depositBase s sender_id block_timestamp = 0 ∧ U64MOD ≤ s.total_user + 1
  · rw [if_pos h7] at h
    exact Raw.noConfusion h
  rw [if_neg h7] at h
  by_cases h8 : depositBase s sender_id block_timestamp = 0
  · rw [if_pos h8] at h
    by_cases h9 : U128MOD ≤ s.total_staked + amount
    · rw [if_pos h9] at h
      exact Raw.noConfusion h
    rw [if_neg h9] at h
    injection h with hs hr
    refine ⟨not_not.mp h1, Bool.not_eq_true _ ▸ h2, h3, h4, not_le.mp h5, not_not.mp h6,
      not_le.mp h9, ?_, hr.symm⟩
    rw [← hs]
    simp [deposit_result, h8]
  · rw [if_neg h8] at h
    by_cases h9 : U128MOD ≤ s.total_staked + amount
    · rw [if_pos h9] at h
      exact Raw.noConfusion h
    rw [if_neg h9] at h
    injection h with hs hr
    refine ⟨not_not.mp h1, Bool.not_eq_true _ ▸ h2, h3, h4, not_le.mp h5, not_not.mp h6,
      not_le.mp h9, ?_, hr.symm⟩
    rw [← hs]
    simp [deposit_result, h8]

theorem unstake_ok_inv {s s' : ContractState} {account_id attached_deposit block_timestamp : Nat}
    {p : PendingCb} {payout : Nat}
    (h : unstake s account_id attached_deposit block_timestamp = Raw.ok s' (p, payout)) :
    attached_deposit = 1 ∧
    ∃ stake_info : StakeInfo,
      mfind s.staked_balances account_id = some stake_info ∧
      mfind s.user_states account_id ≠ some UserOperationState.Staking ∧
      mfind s.user_states account_id ≠ some UserOperationState.Unstaking ∧
      stake_info.start_time + s.lock_duration < U64MOD ∧
      stake_info.start_time + s.lock_duration ≤ block_timestamp / NANOSECONDS ∧
      p = { account_id := account_id
            amount := stake_info.amount
            start_time := stake_info.start_time } ∧
      payout = stake_info.amount ∧
      s' = { s with
             user_states := minsert s.user_states account_id UserOperationState.Unstaking
             staked_balances := mremove s.staked_balances account_id } := by
  simp only [unstake] at h
  by_cases h1 : attached_deposit ≠ 1
  · rw [if_pos h1] at h
    exact Raw.noConfusion h
  rw [if_neg h1] at h
  cases hrec : mfind s.staked_balances account_id with
  | none =>
    rw [hrec] at h
    exact Raw.noConfusion h
  | some stake_info =>
    rw [hrec] at h
    dsimp only at h
    by_cases h2 : mfind s.user_states account_id = some UserOperationState.Staking
    · rw [if_pos h2] at h
      exact Raw.noConfusion h
    rw [if_neg h2] at h
    by_cases h3 : mfind s.user_states account_id = some UserOperationState.Unstaking
    · rw [if_pos h3] at h
      exact Raw.noConfusion h
    rw [if_neg h3] at h
    by_cases h4 : U64MOD ≤ stake_info.start_time + s.lock_duration
    · rw [if_pos h4] at h
      exact Raw.noConfusion h
    rw [if_neg h4] at h
    by_cases h5 : block_timestamp / NANOSECONDS < stake_info.start_time + s.lock_duration
    · rw [if_pos h5] at h
      exact Raw.noConfusion h
    rw [if_neg h5] at h
    injection h with hs hr
    injection hr with hp hv
    exact ⟨not_not.mp h1, stake_info, rfl, h2, h3, not_le.mp h4, not_lt.mp h5, hp.symm, hv.symm,
      hs.symm⟩

theorem on_ft_transfer_then_remove_ok_inv {s s' : ContractState} {account_id amt st : Nat}
    {res b : Bool}
    (h : on_ft_transfer_then_remove s account_id amt st res = Raw.ok s' b) :
    (res = true ∧ b = true ∧ amt ≤ s.total_staked ∧ 1 ≤ s.total_user ∧
      s' = { s with
             total_staked := s.total_staked - amt
             total_user := s.total_user - 1
             user_states := minsert s.user_states account_id UserOperationState.Idle }) ∨
    (res = false ∧ b = false ∧
      s' = { s with
             staked_balances :=
               minsert s.staked_balances account_id { amount := amt, start_time := st }
             user_states := minsert s.user_states account_id UserOperationState.Idle }) := by
  cases res with
  | true =>
    simp only [on_ft_transfer_then_remove, if_true] at h
    by_cases h1 : s.total_staked < amt
    · rw [if_pos h1] at h
      exact Raw.noConfusion h
    rw [if_neg h1] at h
    by_cases h2 : s.total_user < 1
    · rw [if_pos h2] at h
      exact Raw.noConfusion h
    rw [if_neg h2] at h
    injection h with hs hb
    exact Or.inl ⟨rfl, hb.symm, not_lt.mp h1, not_lt.mp h2, hs.symm⟩
  | false =>
    simp only [on_ft_transfer_then_remove, if_false] at h
    injection h with hs hb
    exact Or.inr ⟨rfl, hb.symm, hs.symm⟩

theorem pause_stake_ok_inv {s s' : ContractState} {predecessor attached_deposit : Nat}
    {pause : Bool} {u : Unit}
    (h : pause_stake s predecessor attached_deposit pause = Raw.ok s' u) :
    attached_deposit = 1 ∧ s.owner_id = predecessor ∧ s' = { s with stake_paused := pause } := by
  simp only [pause_stake] at h
  by_cases h1 : attached_deposit ≠ 1
  · rw [if_pos h1] at h
    exact Raw.noConfusion h
  rw [if_neg h1] at h
  by_cases h2 : s.owner_id ≠ predecessor
  · rw [if_pos h2] at h
    exact Raw.noConfusion h
  rw [if_neg h2] at h
  injection h with hs _
  exact ⟨not_not.mp h1, not_not.mp h2, hs.symm⟩

theorem set_lock_duration_ok_inv {s s' : ContractState}
    {predecessor attached_deposit lock_duration : Nat} {u : Unit}
    (h : set_lock_duration s predecessor attached_deposit lock_duration = Raw.ok s' u) :
    attached_deposit = 1 ∧ s.owner_id = predecessor ∧
      s' = { s with lock_duration := lock_duration } := by
  simp only [set_lock_duration] at h
  by_cases h1 : attached_deposit ≠ 1
  · rw [if_pos h1] at h
    exact Raw.noConfusion h
  rw [if_neg h1] at h
  by_cases h2 : s.owner_id ≠ predecessor
  · rw [if_pos h2] at h
    exact Raw.noConfusion h
  rw [if_neg h2] at h
  injection h with hs _
  exact ⟨not_not.mp h1, not_not.mp h2, hs.symm⟩

theorem set_stake_amount_ok_inv {s s' : ContractState}
    {predecessor attached_deposit stake_amount : Nat} {u : Unit}
    (h : set_stake_amount s predecessor attached_deposit stake_amount = Raw.ok s' u) :
    attached_deposit = 1 ∧ s.owner_id = predecessor ∧ stake_amount ≠ 0 ∧
      s' = { s with stake_amount := stake_amount } := by
  simp only [set_stake_amount] at h
  by_cases h1 : attached_deposit ≠ 1
  · rw [if_pos h1] at h
    exact Raw.noConfusion h
  rw [if_neg h1] at h
  by_cases h2 : s.owner_id ≠ predecessor
  · rw [if_pos h2] at h
    exact Raw.noConfusion h
  rw [if_neg h2] at h
  by_cases h3 : stake_amount = 0
  · rw [if_pos h3] at h
    exact Raw.noConfusion h
  rw [if_neg h3] at h
  injection h with hs _
  exact ⟨not_not.mp h1, not_not.mp h2, h3, hs.symm⟩

theorem mfind_mem {α : Type} {l : List (AccountId × α)} {k : AccountId} {v : α}
    (h : mfind l k = some v) : (k, v) ∈ l := by
  induction l with
  | nil => exact Option.noConfusion h
  | cons hd t ih =>
    rw [mfind] at h
    by_cases hk : hd.1 = k
    · rw [if_pos hk, Option.some_inj] at h
      subst h
      rw [← hk]
      exact List.mem_cons_self _ _
    · rw [if_neg hk] at h
      exact List.mem_cons_of_mem _ (ih h)

/-- Total amount carried by the in-flight settlement callbacks. -/
def sumPending (l : List PendingCb) : Nat := (l.map PendingCb.amount).sum

theorem sumPending_middle (l1 l2 : List PendingCb) (p : PendingCb) :
    sumPending (l1 ++ p :: l2) = sumPending (l1 ++ l2) + p.amount := by
  simp only [sumPending, List.map_append, List.map_cons, List.sum_append, List.sum_cons]
  omega

theorem pend_middle {l1 l2 : List PendingCb} {p : PendingCb}
    (h : ((l1 ++ p :: l2).map PendingCb.account_id).Nodup) :
    ((l1 ++ l2).map PendingCb.account_id).Nodup ∧
    ∀ q ∈ l1 ++ l2, q.account_id ≠ p.account_id := by
  rw [List.map_append, List.map_cons, List.nodup_middle, List.nodup_cons] at h
  constructor
  · rw [List.map_append]
    exact h.2
  · intro q hq heq
    apply h.1
    rw [← heq, ← List.map_append]
    exact List.mem_map_of_mem PendingCb.account_id hq

theorem mem_middle {l1 l2 : List PendingCb} {p q : PendingCb} (h : q ∈ l1 ++ l2) :
    q ∈ l1 ++ p :: l2 := by
  rw [List.mem_append] at h ⊢
  rcases h with h | h
  · exact Or.inl h
  · exact Or.inr (List.mem_cons_of_mem _ h)

/-- A model state: the durable contract state together with the list of
in-flight settlement callbacks scheduled by `unstake` and not yet
delivered. -/
structure Model where
  cs : ContractState
  pending : List PendingCb

/-- One observable transition of the system.  Deposits and admin calls
complete synchronously; a successful `unstake` adds an in-flight callback;
`settle` delivers one in-flight callback (at most once, consuming it) with
either transfer outcome. -/
inductive Step : Model → Model → Prop
  | deposit (cs : ContractState) (pending : List PendingCb)
      (predecessor sender_id amount block_timestamp : Nat) (s' : ContractState) (r : Nat)
      (h : ft_on_transfer cs predecessor sender_id amount block_timestamp = Raw.ok s' r) :
      Step ⟨cs, pending⟩ ⟨s', pending⟩
  | unstake_start (cs : ContractState) (pending : List PendingCb)
      (account_id attached_deposit block_timestamp : Nat) (s' : ContractState)
      (p : PendingCb) (payout : Nat)
      (h : unstake cs account_id attached_deposit block_timestamp = Raw.ok s' (p, payout)) :
      Step ⟨cs, pending⟩ ⟨s', p :: pending⟩
  | settle (cs : ContractState) (l1 l2 : List PendingCb) (p : PendingCb) (res : Bool)
      (s' : ContractState) (b : Bool)
      (h : on_ft_transfer_then_remove cs p.account_id p.amount p.start_time res = Raw.ok s' b) :
      Step ⟨cs, l1 ++ p :: l2⟩ ⟨s', l1 ++ l2⟩
  | pause (cs : ContractState) (pending : List PendingCb)
      (predecessor attached_deposit : Nat) (value : Bool) (s' : ContractState) (u : Unit)
      (h : pause_stake cs predecessor attached_deposit value = Raw.ok s' u) :
      Step ⟨cs, pending⟩ ⟨s', pending⟩
  | set_lock (cs : ContractState) (pending : List PendingCb)
      (predecessor attached_deposit lock_duration : Nat) (s' : ContractState) (u : Unit)
      (h : set_lock_duration cs predecessor attached_deposit lock_duration = Raw.ok s' u) :
      Step ⟨cs, pending⟩ ⟨s', pending⟩
  | set_amount (cs : ContractState) (pending : List PendingCb)
      (predecessor attached_deposit stake_amount : Nat) (s' : ContractState) (u : Unit)
      (h : set_stake_amount cs predecessor attached_deposit stake_amount = Raw.ok s' u) :
      Step ⟨cs, pending⟩ ⟨s', pending⟩

/-- States reachable from a freshly initialized contract by successful
operations. -/
inductive Reachable : Model → Prop
  | init (owner_id token_contract : AccountId) :
      Reachable ⟨StakingContract.new owner_id token_contract, []⟩
  | step {m m' : Model} (hr : Reachable m) (hs : Step m m') : Reachable m'

/-- The system invariant maintained by every reachable model state. -/
structure Inv (cs : ContractState) (pending : List PendingCb) : Prop where
  total_ok : cs.total_staked = sumAmounts cs.staked_balances + sumPending pending
  count_ok : cs.total_user = cs.staked_balances.length + pending.length
  rec_pos : ∀ e ∈ cs.staked_balances, 0 < e.2.amount
  amt_pos : 0 < cs.stake_amount
  keys_nodup : (mkeys cs.staked_balances).Nodup
  pend_pos : ∀ p ∈ pending, 0 < p.amount
  pend_norec : ∀ p ∈ pending, mfind cs.staked_balances p.account_id = none
  pend_state : ∀ p ∈ pending,
    mfind cs.user_states p.account_id = some UserOperationState.Unstaking
  no_staking : ∀ a : AccountId, mfind cs.user_states a ≠ some UserOperationState.Staking
  pend_nodup : (pending.map PendingCb.account_id).Nodup

theorem init_inv (owner_id token_contract : AccountId) :
    Inv (StakingContract.new owner_id token_contract) [] := by
  refine ⟨?_, ?_, ?_, ?_, ?_, ?_, ?_, ?_, ?_, ?_⟩ <;>
    simp [StakingContract.new, sumAmounts, sumPending, mkeys, mfind, STAKE_AMOUNT]

theorem sumPending_cons (q : PendingCb) (l : List PendingCb) :
    sumPending (q :: l) = q.amount + sumPending l := by
  simp [sumPending]

theorem step_inv {m m' : Model} (hi : Inv m.cs m.pending) (hs : Step m m') :
    Inv m'.cs m'.pending := by
  cases hs with
  | deposit cs pending predecessor sender_id amount block_timestamp s' r h =>
    dsimp only at hi ⊢
    obtain ⟨hT, hC, hrpos, hapos, hknd, hppos, hpnr, hpst, hnost, hpnd⟩ := hi
    obtain ⟨-, -, hnstk, hnun, -, hamt, -, hs', -⟩ := ft_on_transfer_ok_inv h
    subst hs'
    refine ⟨?_, ?_, ?_, ?_, ?_, ?_, ?_, ?_, ?_, ?_⟩
    · cases hrec : mfind cs.staked_balances sender_id with
      | none =>
        have hbase : depositBase cs sender_id block_timestamp = 0 := by
          simp [depositBase, hrec]
        simp only [deposit_result, sumAmounts_minsert_none hrec]
        omega
      | some si =>
        have hsum := sumAmounts_minsert_found hrec
          ({ amount := depositBase cs sender_id block_timestamp + amount
             start_time := block_timestamp / NANOSECONDS } : StakeInfo)
        dsimp only at hsum
        have hbase : depositBase cs sender_id block_timestamp = si.amount := by
          simp [depositBase, hrec]
        simp only [deposit_result]
        omega
    · cases hrec : mfind cs.staked_balances sender_id with
      | none =>
        have hbase : depositBase cs sender_id block_timestamp = 0 := by
          simp [depositBase, hrec]
        simp only [deposit_result, length_minsert_none hrec]
        rw [if_pos hbase]
        omega
      | some si =>
        have hsipos : 0 < si.amount := hrpos (sender_id, si) (mfind_mem hrec)
        have hbase : depositBase cs sender_id block_timestamp = si.amount := by
          simp [depositBase, hrec]
        have hbase0 : ¬depositBase cs sender_id block_timestamp = 0 := by omega
        simp only [deposit_result, length_minsert_found hrec]
        rw [if_neg hbase0]
        omega
    · intro e he
      simp only [deposit_result] at he
      rcases mem_minsert he with he | he
      · subst he
        show 0 < depositBase cs sender_id block_timestamp + amount
        rw [hamt]
        exact hapos
      · exact hrpos e he
    · exact hapos
    · simp only [deposit_result]
      exact mkeys_nodup_minsert _ _ hknd
    · exact hppos
    · intro p hp
      have hne : p.account_id ≠ sender_id := fun he => hnun (he ▸ hpst p hp)
      simp only [deposit_result]
      rw [mfind_minsert_ne _ _ hne]
      exact hpnr p hp
    · intro p hp
      have hne : p.account_id ≠ sender_id := fun he => hnun (he ▸ hpst p hp)
      simp only [deposit_result]
      rw [mfind_minsert_ne _ _ hne, mfind_minsert_ne _ _ hne]
      exact hpst p hp
    · intro a
      simp only [deposit_result]
      by_cases ha : a = sender_id
      · subst ha
        rw [mfind_minsert_self]
        simp
      · rw [mfind_minsert_ne _ _ ha, mfind_minsert_ne _ _ ha]
        exact hnost a
    · exact hpnd
  | unstake_start cs pending account_id attached_deposit block_timestamp s' p payout h =>
    dsimp only at hi ⊢
    obtain ⟨hT, hC, hrpos, hapos, hknd, hppos, hpnr, hpst, hnost, hpnd⟩ := hi
    obtain ⟨-, si, hrec, hnstk, hnun, -, -, hp, -, hs'⟩ := unstake_ok_inv h
    subst hs'
    subst hp
    refine ⟨?_, ?_, ?_, ?_, ?_, ?_, ?_, ?_, ?_, ?_⟩
    · have hsum := sumAmounts_mremove_found hrec
      dsimp only
      rw [sumPending_cons]
      dsimp only
      omega
    · have hlen := length_mremove_found hrec
      dsimp only
      rw [List.length_cons]
      omega
    · intro e he
      dsimp only at he
      exact hrpos e (mem_mremove he)
    · exact hapos
    · dsimp only
      exact mkeys_nodup_mremove _ hknd
    · intro q hq
      rcases List.mem_cons.mp hq with hq | hq
      · subst hq
        show 0 < si.amount
        exact hrpos (account_id, si) (mfind_mem hrec)
      · exact hppos q hq
    · intro q hq
      dsimp only
      rcases List.mem_cons.mp hq with hq | hq
      · subst hq
        show mfind (mremove cs.staked_balances account_id) account_id = none
        exact mfind_mremove_self hknd
      · have hne : q.account_id ≠ account_id := fun he => hnun (he ▸ hpst q hq)
        rw [mfind_mremove_ne _ hne]
        exact hpnr q hq
    · intro q hq
      dsimp only
      rcases List.mem_cons.mp hq with hq | hq
      · subst hq
        show mfind (minsert cs.user_states account_id UserOperationState.Unstaking) account_id =
          some UserOperationState.Unstaking
        exact mfind_minsert_self _ _ _
      · have hne : q.account_id ≠ account_id := fun he => hnun (he ▸ hpst q hq)
        rw [mfind_minsert_ne _ _ hne]
        exact hpst q hq
    · intro a
      dsimp only
      by_cases ha : a = account_id
      · subst ha
        rw [mfind_minsert_self]
        simp
      · rw [mfind_minsert_ne _ _ ha]
        exact hnost a
    · rw [List.map_cons, List.nodup_cons]
      constructor
      · intro hmem
        obtain ⟨q, hq, hqa⟩ := List.mem_map.mp hmem
        have hqa2 : q.account_id = account_id := hqa
        exact hnun (hqa2 ▸ hpst q hq)
      · exact hpnd
  | settle cs l1 l2 p res s' b h =>
    dsimp only at hi ⊢
    obtain ⟨hT, hC, hrpos, hapos, hknd, hppos, hpnr, hpst, hnost, hpnd⟩ := hi
    have hp : p ∈ l1 ++ p :: l2 := List.mem_append_right l1 (List.mem_cons_self p l2)
    obtain ⟨hmnd, hmne⟩ := pend_middle hpnd
    have hsmid := sumPending_middle l1 l2 p
    have hlmid : (l1 ++ p :: l2).length = (l1 ++ l2).length + 1 := by
      simp only [List.length_append, List.length_cons]
      omega
    rcases on_ft_transfer_then_remove_ok_inv h with ⟨-, -, hle, hge, hs'⟩ | ⟨-, -, hs'⟩
    · subst hs'
      refine ⟨?_, ?_, ?_, ?_, ?_, ?_, ?_, ?_, ?_, ?_⟩
      · dsimp only
        omega
      · dsimp only
        omega
      · exact hrpos
      · exact hapos
      · exact hknd
      · intro q hq
        exact hppos q (mem_middle hq)
      · intro q hq
        exact hpnr q (mem_middle hq)
      · intro q hq
        dsimp only
        rw [mfind_minsert_ne _ _ (hmne q hq)]
        exact hpst q (mem_middle hq)
      · intro a
        dsimp only
        by_cases ha : a = p.account_id
        · subst ha
          rw [mfind_minsert_self]
          simp
        · rw [mfind_minsert_ne _ _ ha]
          exact hnost a
      · exact hmnd
    · subst hs'
      have hrecnone := hpnr p hp
      refine ⟨?_, ?_, ?_, ?_, ?_, ?_, ?_, ?_, ?_, ?_⟩
      · dsimp only
        rw [sumAmounts_minsert_none hrecnone]
        dsimp only
        omega
      · dsimp only
        rw [length_minsert_none hrecnone]
        omega
      · intro e he
        dsimp only at he
        rcases mem_minsert he with he | he
        · subst he
          show 0 < p.amount
          exact hppos p hp
        · exact hrpos e he
      · exact hapos
      · dsimp only
        exact mkeys_nodup_minsert _ _ hknd
      · intro q hq
        exact hppos q (mem_middle hq)
      · intro q hq
        dsimp only
        rw [mfind_minsert_ne _ _ (hmne q hq)]
        exact hpnr q (mem_middle hq)
      · intro q hq
        dsimp only
        rw [mfind_minsert_ne _ _ (hmne q hq)]
        exact hpst q (mem_middle hq)
      · intro a
        dsimp only
        by_cases ha : a = p.account_id
        · subst ha
          rw [mfind_minsert_self]
          simp
        · rw [mfind_minsert_ne _ _ ha]
          exact hnost a
      · exact hmnd
  | pause cs pending predecessor attached_deposit value s' u h =>
    dsimp only at hi ⊢
    obtain ⟨-, -, hs'⟩ := pause_stake_ok_inv h
    subst hs'
    obtain ⟨hT, hC, hrpos, hapos, hknd, hppos, hpnr, hpst, hnost, hpnd⟩ := hi
    exact ⟨hT, hC, hrpos, hapos, hknd, hppos, hpnr, hpst, hnost, hpnd⟩
  | set_lock cs pending predecessor attached_deposit lock_duration s' u h =>
    dsimp only at hi ⊢
    obtain ⟨-, -, hs'⟩ := set_lock_duration_ok_inv h
    subst hs'
    obtain ⟨hT, hC, hrpos, hapos, hknd, hppos, hpnr, hpst, hnost, hpnd⟩ := hi
    exact ⟨hT, hC, hrpos, hapos, hknd, hppos, hpnr, hpst, hnost, hpnd⟩
  | set_amount cs pending predecessor attached_deposit stake_amount s' u h =>
    dsimp only at hi ⊢
    obtain ⟨-, -, h3, hs'⟩ := set_stake_amount_ok_inv h
    subst hs'
    obtain ⟨hT, hC, hrpos, hapos, hknd, hppos, hpnr, hpst, hnost, hpnd⟩ := hi
    exact ⟨hT, hC, hrpos, Nat.pos_of_ne_zero h3, hknd, hppos, hpnr, hpst, hnost, hpnd⟩

theorem reachable_inv {m : Model} (h : Reachable m) : Inv m.cs m.pending := by
  induction h with
  | init owner_id token_contract => exact init_inv owner_id token_contract
  | step hr hstep ih => exact step_inv ih hstep

theorem mfind_le_sumAmounts {l : List (AccountId × StakeInfo)} {k : AccountId} {v : StakeInfo}
    (h : mfind l k = some v) : v.amount ≤ sumAmounts l := by
  have := sumAmounts_mremove_found h
  omega

theorem ft_on_transfer_wrongToken (s : ContractState)
    (predecessor sender_id amount block_timestamp : Nat)
    (h : predecessor ≠ s.token_contract) :
    ft_on_transfer s predecessor sender_id amount block_timestamp =
      Raw.panic DepositErr.wrongToken s := by
  simp only [ft_on_transfer]
  rw [if_pos h]

theorem ft_on_transfer_paused (s : ContractState) (sender_id amount block_timestamp : Nat)
    (h : s.stake_paused = true) :
    ft_on_transfer s s.token_contract sender_id amount block_timestamp =
      Raw.panic DepositErr.paused s := by
  simp only [ft_on_transfer]
  rw [if_neg (show ¬s.token_contract ≠ s.token_contract from fun hc => hc rfl), if_pos h]

theorem ft_on_transfer_unstaking_conflict (s : ContractState)
    (sender_id amount block_timestamp : Nat)
    (hp : s.stake_paused = false)
    (hu : mfind s.user_states sender_id = some UserOperationState.Unstaking) :
    ft_on_transfer s s.token_contract sender_id amount block_timestamp =
      Raw.panic DepositErr.unstakingInProgress s := by
  simp only [ft_on_transfer]
  rw [if_neg (show ¬s.token_contract ≠ s.token_contract from fun hc => hc rfl),
    if_neg (show ¬s.stake_paused = true by simp [hp]),
    if_neg (show ¬mfind s.user_states sender_id = some UserOperationState.Staking by simp [hu]),
    if_pos hu]

theorem ft_on_transfer_staking_conflict (s : ContractState)
    (sender_id amount block_timestamp : Nat)
    (hp : s.stake_paused = false)
    (hu : mfind s.user_states sender_id = some UserOperationState.Staking) :
    ft_on_transfer s s.token_contract sender_id amount block_timestamp =
      Raw.panic DepositErr.stakingInProgress s := by
  simp only [ft_on_transfer]
  rw [if_neg (show ¬s.token_contract ≠ s.token_contract from fun hc => hc rfl),
    if_neg (show ¬s.stake_paused = true by simp [hp]), if_pos hu]

theorem ft_on_transfer_wrongAmount (s : ContractState)
    (sender_id amount block_timestamp : Nat)
    (hp : s.stake_paused = false)
    (hstk : mfind s.user_states sender_id ≠ some UserOperationState.Staking)
    (hun : mfind s.user_states sender_id ≠ some UserOperationState.Unstaking)
    (hlt : depositBase s sender_id block_timestamp + amount < U128MOD)
    (hne : depositBase s sender_id block_timestamp + amount ≠ s.stake_amount) :
    ft_on_transfer s s.token_contract sender_id amount block_timestamp =
      Raw.panic DepositErr.wrongAmount
        { s with user_states := minsert s.user_states sender_id UserOperationState.Staking } := by
  simp only [ft_on_transfer]
  rw [show (((mfind s.staked_balances sender_id).getD
      { amount := 0, start_time := block_timestamp / NANOSECONDS }).amount : Nat)
    = depositBase s sender_id block_timestamp from rfl]
  rw [if_neg (show ¬s.token_contract ≠ s.token_contract from fun hc => hc rfl),
    if_neg (show ¬s.stake_paused = true by simp [hp]), if_neg hstk, if_neg hun,
    if_neg (not_le.mpr hlt), if_pos hne]

theorem ft_on_transfer_ok_of (s : ContractState) (sender_id amount block_timestamp : Nat)
    (hp : s.stake_paused = false)
    (hstk : mfind s.user_states sender_id ≠ some UserOperationState.Staking)
    (hun : mfind s.user_states sender_id ≠ some UserOperationState.Unstaking)
    (heq : depositBase s sender_id block_timestamp + amount = s.stake_amount)
    (hsb : s.stake_amount < U128MOD)
    (hub : s.total_user + 1 < U64MOD)
    (htb : s.total_staked + amount < U128MOD) :
    ft_on_transfer s s.token_contract sender_id amount block_timestamp =
      Raw.ok (deposit_result s sender_id amount block_timestamp) 0 := by
  simp only [ft_on_transfer]
  rw [show (((mfind s.staked_balances sender_id).getD
      { amount := 0, start_time := block_timestamp / NANOSECONDS }).amount : Nat)
    = depositBase s sender_id block_timestamp from rfl]
  rw [if_neg (show ¬s.token_contract ≠ s.token_contract from fun hc => hc rfl),
    if_neg (show ¬s.stake_paused = true by simp [hp]), if_neg hstk, if_neg hun,
    if_neg (show ¬U128MOD ≤ depositBase s sender_id block_timestamp + amount by omega),
    if_neg (not_not.mpr heq),
    if_neg (show ¬(depositBase s sender_id block_timestamp = 0 ∧
      U64MOD ≤ s.total_user + 1) from fun hc => absurd hc.2 (by omega))]
  by_cases hb0 : depositBase s sender_id block_timestamp = 0
  · rw [if_pos hb0]
    dsimp only
    rw [if_neg (not_le.mpr htb)]
    simp [deposit_result, hb0]
  · rw [if_neg hb0]
    dsimp only
    rw [if_neg (not_le.mpr htb)]
    simp [deposit_result, hb0]

theorem unstake_noDeposit (s : ContractState) (account_id attached_deposit block_timestamp : Nat)
    (h : attached_deposit ≠ 1) :
    unstake s account_id attached_deposit block_timestamp =
      Raw.panic UnstakeErr.noDeposit s := by
  simp only [unstake]
  rw [if_pos h]

theorem unstake_noStake (s : ContractState) (account_id block_timestamp : Nat)
    (h : mfind s.staked_balances account_id = none) :
    unstake s account_id 1 block_timestamp = Raw.panic UnstakeErr.noStake s := by
  simp only [unstake]
  rw [if_neg (show ¬(1 : Nat) ≠ 1 from fun hc => hc rfl), h]

theorem unstake_staking_conflict (s : ContractState) (account_id block_timestamp : Nat)
    (si : StakeInfo)
    (hrec : mfind s.staked_balances account_id = some si)
    (hstk : mfind s.user_states account_id = some UserOperationState.Staking) :
    unstake s account_id 1 block_timestamp = Raw.panic UnstakeErr.stakingInProgress s := by
  simp only [unstake]
  rw [if_neg (show ¬(1 : Nat) ≠ 1 from fun hc => hc rfl), hrec]
  dsimp only
  rw [if_pos hstk]

theorem unstake_unstaking_conflict (s : ContractState) (account_id block_timestamp : Nat)
    (si : StakeInfo)
    (hrec : mfind s.staked_balances account_id = some si)
    (hun : mfind s.user_states account_id = some UserOperationState.Unstaking) :
    unstake s account_id 1 block_timestamp = Raw.panic UnstakeErr.unstakingInProgress s := by
  simp only [unstake]
  rw [if_neg (show ¬(1 : Nat) ≠ 1 from fun hc => hc rfl), hrec]
  dsimp only
  rw [if_neg (show ¬mfind s.user_states account_id = some UserOperationState.Staking by
    simp [hun]), if_pos hun]

theorem unstake_timeOverflow (s : ContractState) (account_id block_timestamp : Nat)
    (si : StakeInfo)
    (hrec : mfind s.staked_balances account_id = some si)
    (hstk : mfind s.user_states account_id ≠ some UserOperationState.Staking)
    (hun : mfind s.user_states account_id ≠ some UserOperationState.Unstaking)
    (hov : U64MOD ≤ si.start_time + s.lock_duration) :
    unstake s account_id 1 block_timestamp =
      Raw.panic UnstakeErr.timeOverflow
        { s with user_states := minsert s.user_states account_id UserOperationState.Unstaking } := by
  simp only [unstake]
  rw [if_neg (show ¬(1 : Nat) ≠ 1 from fun hc => hc rfl), hrec]
  dsimp only
  rw [if_neg hstk, if_neg hun, if_pos hov]

theorem unstake_notYet (s : ContractState) (account_id block_timestamp : Nat)
    (si : StakeInfo)
    (hrec : mfind s.staked_balances account_id = some si)
    (hstk : mfind s.user_states account_id ≠ some UserOperationState.Staking)
    (hun : mfind s.user_states account_id ≠ some UserOperationState.Unstaking)
    (hbound : si.start_time + s.lock_duration < U64MOD)
    (hlt : block_timestamp / NANOSECONDS < si.start_time + s.lock_duration) :
    unstake s account_id 1 block_timestamp =
      Raw.panic UnstakeErr.notYet
        { s with user_states := minsert s.user_states account_id UserOperationState.Unstaking } := by
  simp only [unstake]
  rw [if_neg (show ¬(1 : Nat) ≠ 1 from fun hc => hc rfl), hrec]
  dsimp only
  rw [if_neg hstk, if_neg hun, if_neg (not_le.mpr hbound), if_pos hlt]

theorem unstake_ok_of (s : ContractState) (account_id block_timestamp : Nat)
    (si : StakeInfo)
    (hrec : mfind s.staked_balances account_id = some si)
    (hstk : mfind s.user_states account_id ≠ some UserOperationState.Staking)
    (hun : mfind s.user_states account_id ≠ some UserOperationState.Unstaking)
    (hbound : si.start_time + s.lock_duration < U64MOD)
    (hge : si.start_time + s.lock_duration ≤ block_timestamp / NANOSECONDS) :
    unstake s account_id 1 block_timestamp =
      Raw.ok
        { s with
          user_states := minsert s.user_states account_id UserOperationState.Unstaking
          staked_balances := mremove s.staked_balances account_id }
        ({ account_id := account_id, amount := si.amount, start_time := si.start_time },
          si.amount) := by
  simp only [unstake]
  rw [if_neg (show ¬(1 : Nat) ≠ 1 from fun hc => hc rfl), hrec]
  dsimp only
  rw [if_neg hstk, if_neg hun, if_neg (not_le.mpr hbound), if_neg (not_lt.mpr hge)]

/-- Demo state: freshly initialized contract, owner 0, token contract 1. -/
def demo0 : ContractState := StakingContract.new 0 1

/-- Demo state: `demo0` after account 2 deposits the full required stake at
block timestamp 0. -/
def demo1 : ContractState :=
  { demo0 with
    staked_balances := [(2, { amount := STAKE_AMOUNT, start_time := 0 })]
    user_states := [(2, UserOperationState.Idle)]
    total_staked := STAKE_AMOUNT
    total_user := 1 }

/-- Block timestamp (nanoseconds) at which `demo1`'s lock expires. -/
def unlockTs : Nat := 2 * WEEK * NANOSECONDS

/-- Demo state: `demo1` after account 2 starts unstaking at `unlockTs`
(record removed optimistically, lock set to Unstaking). -/
def demo2 : ContractState :=
  { demo1 with
    staked_balances := []
    user_states := [(2, UserOperationState.Unstaking)] }

/-- The callback scheduled by the demo unstake. -/
def demoPending : PendingCb :=
  { account_id := 2, amount := STAKE_AMOUNT, start_time := 0 }

theorem demo1_deposit : ft_on_transfer demo0 1 2 STAKE_AMOUNT 0 = Raw.ok demo1 0 := by rfl

theorem demo2_unstake :
    unstake demo1 2 1 unlockTs = Raw.ok demo2 (demoPending, STAKE_AMOUNT) := by rfl

theorem demo1_reachable : Reachable ⟨demo1, []⟩ :=
  Reachable.step (Reachable.init 0 1)
    (Step.deposit demo0 [] 1 2 STAKE_AMOUNT 0 demo1 0 demo1_deposit)

theorem demo2_reachable : Reachable ⟨demo2, [demoPending]⟩ :=
  Reachable.step demo1_reachable
    (Step.unstake_start demo1 [] 2 1 unlockTs demo2 demoPending STAKE_AMOUNT demo2_unstake)

/-- C1 is false as stated: the two-deposit sequence [5e19, 5e19] sums exactly
to the required stake amount of the fresh contract (1e20), yet its first
deposit is already rejected with the wrong-amount error, because each single
call requires existing + incoming to equal the required amount exactly. -/
theorem C1_counterexample_split_deposit_rejected :
    5 * 10 ^ 19 + 5 * 10 ^ 19 = demo0.stake_amount ∧
    ft_on_transfer_exec demo0 1 2 (5 * 10 ^ 19) 0 =
      Except.error DepositErr.wrongAmount := by
  exact ⟨by decide, by rfl⟩

/-- C1 (amended): a single deposit from the token contract (staking not
paused, no conflicting operation) is accepted iff the account's existing
recorded amount plus the incoming amount equals the required stake amount
exactly; so with an unchanged required amount, only a first deposit of the
full amount (or a later zero-amount top-up) succeeds, and a sequence of two
or more nonzero partial deposits summing to the required amount fails at its
first increment.  A deposit whose existing+incoming sum differs from the
required amount is rejected with the wrong-amount error, and the panic
reverts the receipt, leaving the durable state — in particular total_staked
and total_user — unchanged. -/
theorem C1_exact_threshold_deposits (s : ContractState)
    (sender_id amount block_timestamp : Nat)
    (hp : s.stake_paused = false)
    (hstate : mfind s.user_states sender_id = none ∨
      mfind s.user_states sender_id = some UserOperationState.Idle)
    (hbound : depositBase s sender_id block_timestamp + amount < U128MOD)
    (hub : s.total_user + 1 < U64MOD)
    (htb : s.total_staked + amount < U128MOD) :
    (depositBase s sender_id block_timestamp + amount = s.stake_amount →
      ft_on_transfer_exec s s.token_contract sender_id amount block_timestamp =
        Except.ok (deposit_result s sender_id amount block_timestamp, 0)) ∧
    (depositBase s sender_id block_timestamp + amount ≠ s.stake_amount →
      ft_on_transfer_exec s s.token_contract sender_id amount block_timestamp =
        Except.error DepositErr.wrongAmount ∧
      apply_ft_on_transfer s s.token_contract sender_id amount block_timestamp = s) := by
  have hstk : mfind s.user_states sender_id ≠ some UserOperationState.Staking := by
    rcases hstate with h | h <;> simp [h]
  have hun : mfind s.user_states sender_id ≠ some UserOperationState.Unstaking := by
    rcases hstate with h | h <;> simp [h]
  constructor
  · intro heq
    have hraw := ft_on_transfer_ok_of s sender_id amount block_timestamp hp hstk hun heq
      (by omega) hub htb
    rw [ft_on_transfer_exec, hraw]
  · intro hne
    have hraw := ft_on_transfer_wrongAmount s sender_id amount block_timestamp hp hstk hun
      hbound hne
    constructor
    · rw [ft_on_transfer_exec, hraw]
    · rw [apply_ft_on_transfer, hraw]

/-- Witness for C1 (amended) at a concrete input: on the fresh contract a
single full-amount deposit by account 2 succeeds, and a deposit of 1 unit is
rejected with the state unchanged. -/
theorem C1_exact_threshold_deposits_witness :
    ft_on_transfer_exec demo0 demo0.token_contract 2 STAKE_AMOUNT 0 =
      Except.ok (deposit_result demo0 2 STAKE_AMOUNT 0, 0) ∧
    (ft_on_transfer_exec demo0 demo0.token_contract 2 1 0 =
      Except.error DepositErr.wrongAmount ∧
      apply_ft_on_transfer demo0 demo0.token_contract 2 1 0 = demo0) := by
  constructor
  · exact (C1_exact_threshold_deposits demo0 2 STAKE_AMOUNT 0 rfl (Or.inl rfl)
      (by decide) (by decide) (by decide)).1 (by decide)
  · exact (C1_exact_threshold_deposits demo0 2 1 0 rfl (Or.inl rfl)
      (by decide) (by decide) (by decide)).2 (by decide)

/-- C8: for an account with no stake record, `get_stake_info` returns none
and `user_staked` returns the all-defaults view; for an account with a
record, `user_staked` reports the record's amount and start_time, and its
`staked` flag is true iff the recorded amount is at least the current
required stake amount. -/
theorem C8_view_functions (s : ContractState) (account_id : AccountId) :
    (mfind s.staked_balances account_id = none →
      get_stake_info s account_id = none ∧
      user_staked s account_id = { staked := false, amount := 0, start_time := 0 }) ∧
    (∀ si : StakeInfo, mfind s.staked_balances account_id = some si →
      get_stake_info s account_id = some si ∧
      (user_staked s account_id).amount = si.amount ∧
      (user_staked s account_id).start_time = si.start_time ∧
      ((user_staked s account_id).staked = true ↔ s.stake_amount ≤ si.amount)) := by
  constructor
  · intro h
    exact ⟨by simp [get_stake_info, h], by simp [user_staked, h]⟩
  · intro si h
    refine ⟨by simp [get_stake_info, h], ?_, ?_, ?_⟩
    · simp [user_staked, h]
    · simp [user_staked, h]
    · simp [user_staked, h]

/-- Witness for C8 at concrete inputs: the never-staked account 7 on the
fresh contract, and the fully staked account 2 on `demo1`. -/
theorem C8_view_functions_witness :
    (get_stake_info demo0 7 = none ∧
      user_staked demo0 7 = { staked := false, amount := 0, start_time := 0 }) ∧
    (get_stake_info demo1 2 = some { amount := STAKE_AMOUNT, start_time := 0 } ∧
      (user_staked demo1 2).staked = true) := by
  refine ⟨(C8_view_functions demo0 7).1 rfl, ?_⟩
  have h := (C8_view_functions demo1 2).2 { amount := STAKE_AMOUNT, start_time := 0 } rfl
  exact ⟨h.1, h.2.2.2.mpr (by decide)⟩

/-- C10: for an account whose recorded amount already equals the required
stake amount and whose operation state is Idle, a zero-amount deposit from
the token contract (staking not paused) is accepted: it returns unused
amount 0, leaves the recorded amount, total_staked and total_user
unchanged, and resets the record's start_time to the current time,
restarting the lock period. -/
theorem C10_zero_deposit_restarts_lock (s : ContractState)
    (sender_id block_timestamp : Nat) (si : StakeInfo)
    (hrec : mfind s.staked_balances sender_id = some si)
    (hfull : si.amount = s.stake_amount)
    (hp : s.stake_paused = false)
    (hstate : mfind s.user_states sender_id = none ∨
      mfind s.user_states sender_id = some UserOperationState.Idle)
    (hpos : 0 < s.stake_amount)
    (hsb : s.stake_amount < U128MOD)
    (hub : s.total_user + 1 < U64MOD)
    (htb : s.total_staked < U128MOD) :
    ∃ s' : ContractState,
      ft_on_transfer_exec s s.token_contract sender_id 0 block_timestamp =
        Except.ok (s', 0) ∧
      mfind s'.staked_balances sender_id =
        some { amount := si.amount, start_time := block_timestamp / NANOSECONDS } ∧
      s'.total_staked = s.total_staked ∧
      s'.total_user = s.total_user := by
  have hbase : depositBase s sender_id block_timestamp = si.amount := by
    simp [depositBase, hrec]
  have hstk : mfind s.user_states sender_id ≠ some UserOperationState.Staking := by
    rcases hstate with h | h <;> simp [h]
  have hun : mfind s.user_states sender_id ≠ some UserOperationState.Unstaking := by
    rcases hstate with h | h <;> simp [h]
  have heq : depositBase s sender_id block_timestamp + 0 = s.stake_amount := by omega
  have hraw := ft_on_transfer_ok_of s sender_id 0 block_timestamp hp hstk hun heq hsb hub
    (by omega)
  refine ⟨deposit_result s sender_id 0 block_timestamp, ?_, ?_, ?_, ?_⟩
  · rw [ft_on_transfer_exec, hraw]
  · simp only [deposit_result]
    rw [mfind_minsert_self]
    simp [hbase]
  · simp only [deposit_result]
    omega
  · simp only [deposit_result]
    rw [if_neg (show ¬depositBase s sender_id block_timestamp = 0 by omega)]

/-- Witness for C10 at a concrete input: account 2 on `demo1` sends a
zero-amount deposit at block time 5 s; the record keeps its amount and its
start_time moves from 0 to 5, with both counters unchanged. -/
theorem C10_zero_deposit_restarts_lock_witness :
    ∃ s' : ContractState,
      ft_on_transfer_exec demo1 demo1.token_contract 2 0 (5 * NANOSECONDS) =
        Except.ok (s', 0) ∧
      mfind s'.staked_balances 2 =
        some { amount := STAKE_AMOUNT, start_time := 5 * NANOSECONDS / NANOSECONDS } ∧
      s'.total_staked = demo1.total_staked ∧
      s'.total_user = demo1.total_user := by
  exact C10_zero_deposit_restarts_lock demo1 2 (5 * NANOSECONDS)
    { amount := STAKE_AMOUNT, start_time := 0 } rfl rfl rfl (Or.inr rfl)
    (by decide) (by decide) (by decide) (by decide)

/-- C2: after every successful operation sequence in which all scheduled
settlement callbacks have been delivered (no in-flight withdrawal is
pending), total_staked equals the sum of the amounts of all stored stake
records and total_user equals the number of stored stake records. -/
theorem C2_counters_match_ledger (m : Model) (hr : Reachable m)
    (hq : m.pending = []) :
    m.cs.total_staked = sumAmounts m.cs.staked_balances ∧
    m.cs.total_user = m.cs.staked_balances.length := by
  obtain ⟨hT, hC, -, -, -, -, -, -, -, -⟩ := reachable_inv hr
  rw [hq] at hT hC
  simp only [sumPending, List.map_nil, List.sum_nil, List.length_nil] at hT hC
  omega

/-- Witness for C2 at a concrete reachable quiescent state (`demo1`). -/
theorem C2_counters_match_ledger_witness :
    demo1.total_staked = sumAmounts demo1.staked_balances ∧
    demo1.total_user = demo1.staked_balances.length :=
  C2_counters_match_ledger ⟨demo1, []⟩ demo1_reachable rfl

/-- C3: for an in-flight withdrawal started by a successful `unstake` from a
reachable state, delivering the settlement callback with a successful
transfer outcome succeeds: it decrements total_staked by the withdrawn
amount, decrements total_user by one, sets the account's operation state to
Idle, leaves the ledger untouched, and the account's stake record remains
absent. -/
theorem C3_commit_path (m : Model) (hr : Reachable m)
    (account_id attached_deposit block_timestamp : Nat) (s1 : ContractState)
    (p : PendingCb) (payout : Nat)
    (hu : unstake m.cs account_id attached_deposit block_timestamp = Raw.ok s1 (p, payout)) :
    ∃ s2 : ContractState,
      on_ft_transfer_then_remove s1 p.account_id p.amount p.start_time true =
        Raw.ok s2 true ∧
      p.amount ≤ s1.total_staked ∧
      s2.total_staked + p.amount = s1.total_staked ∧
      1 ≤ s1.total_user ∧
      s2.total_user + 1 = s1.total_user ∧
      mfind s2.user_states p.account_id = some UserOperationState.Idle ∧
      s2.staked_balances = s1.staked_balances ∧
      mfind s2.staked_balances p.account_id = none := by
  obtain ⟨hT, hC, hrpos, -, hknd, -, -, -, -, -⟩ := reachable_inv hr
  obtain ⟨-, si, hrec, -, -, -, -, hp, -, hs'⟩ := unstake_ok_inv hu
  subst hs'
  subst hp
  have hle : si.amount ≤ m.cs.total_staked := by
    have := mfind_le_sumAmounts hrec
    omega
  have hlen := length_mremove_found hrec
  have hge : 1 ≤ m.cs.total_user := by omega
  have hcb : on_ft_transfer_then_remove
      { m.cs with
        user_states := minsert m.cs.user_states account_id UserOperationState.Unstaking
        staked_balances := mremove m.cs.staked_balances account_id }
      account_id si.amount si.start_time true =
      Raw.ok
        { m.cs with
          user_states := minsert (minsert m.cs.user_states account_id
            UserOperationState.Unstaking) account_id UserOperationState.Idle
          staked_balances := mremove m.cs.staked_balances account_id
          total_staked := m.cs.total_staked - si.amount
          total_user := m.cs.total_user - 1 } true := by
    simp only [on_ft_transfer_then_remove]
    rw [if_pos trivial, if_neg (not_lt.mpr hle), if_neg (not_lt.mpr hge)]
  refine ⟨_, hcb, hle, ?_, hge, ?_, ?_, rfl, ?_⟩
  · show m.cs.total_staked - si.amount + si.amount = m.cs.total_staked
    omega
  · show m.cs.total_user - 1 + 1 = m.cs.total_user
    omega
  · exact mfind_minsert_self _ _ _
  · exact mfind_mremove_self hknd

/-- Witness for C3 at the concrete commit path: deposit by account 2,
unstake at the unlock time, then a successful settlement callback. -/
theorem C3_commit_path_witness :
    ∃ s2 : ContractState,
      on_ft_transfer_then_remove demo2 demoPending.account_id demoPending.amount
        demoPending.start_time true = Raw.ok s2 true ∧
      demoPending.amount ≤ demo2.total_staked ∧
      s2.total_staked + demoPending.amount = demo2.total_staked ∧
      1 ≤ demo2.total_user ∧
      s2.total_user + 1 = demo2.total_user ∧
      mfind s2.user_states demoPending.account_id = some UserOperationState.Idle ∧
      s2.staked_balances = demo2.staked_balances ∧
      mfind s2.staked_balances demoPending.account_id = none :=
  C3_commit_path ⟨demo1, []⟩ demo1_reachable 2 1 unlockTs demo2 demoPending STAKE_AMOUNT
    demo2_unstake

/-- C4: for an in-flight withdrawal with closure state (amount, start_time)
taken from the removed record, delivering the settlement callback with a
failed transfer outcome reinserts a record with exactly that amount and
start_time, sets the operation state to Idle, and leaves total_staked and
total_user at their pre-withdrawal values. -/
theorem C4_rollback_path (s0 : ContractState)
    (account_id attached_deposit block_timestamp : Nat) (s1 : ContractState)
    (p : PendingCb) (payout : Nat)
    (hu : unstake s0 account_id attached_deposit block_timestamp = Raw.ok s1 (p, payout)) :
    ∃ (si : StakeInfo) (s2 : ContractState),
      mfind s0.staked_balances account_id = some si ∧
      p = { account_id := account_id, amount := si.amount, start_time := si.start_time } ∧
      on_ft_transfer_then_remove s1 p.account_id p.amount p.start_time false =
        Raw.ok s2 false ∧
      mfind s2.staked_balances account_id =
        some { amount := si.amount, start_time := si.start_time } ∧
      mfind s2.user_states account_id = some UserOperationState.Idle ∧
      s2.total_staked = s0.total_staked ∧
      s2.total_user = s0.total_user := by
  obtain ⟨-, si, hrec, -, -, -, -, hp, -, hs'⟩ := unstake_ok_inv hu
  subst hs'
  subst hp
  have hcb : on_ft_transfer_then_remove
      { s0 with
        user_states := minsert s0.user_states account_id UserOperationState.Unstaking
        staked_balances := mremove s0.staked_balances account_id }
      account_id si.amount si.start_time false =
      Raw.ok
        { s0 with
          user_states := minsert (minsert s0.user_states account_id
            UserOperationState.Unstaking) account_id UserOperationState.Idle
          staked_balances := minsert (mremove s0.staked_balances account_id) account_id
            { amount := si.amount, start_time := si.start_time } } false := by
    simp only [on_ft_transfer_then_remove]
    rw [if_neg (show ¬false = true by simp)]
  refine ⟨si, _, hrec, rfl, hcb, ?_, ?_, rfl, rfl⟩
  · exact mfind_minsert_self _ _ _
  · exact mfind_minsert_self _ _ _

/-- Witness for C4 at the concrete rollback path: deposit by account 2,
unstake at the unlock time, then a failed settlement callback restoring the
record. -/
theorem C4_rollback_path_witness :
    ∃ (si : StakeInfo) (s2 : ContractState),
      mfind demo1.staked_balances 2 = some si ∧
      demoPending = { account_id := 2, amount := si.amount, start_time := si.start_time } ∧
      on_ft_transfer_then_remove demo2 demoPending.account_id demoPending.amount
        demoPending.start_time false = Raw.ok s2 false ∧
      mfind s2.staked_balances 2 = some { amount := si.amount, start_time := si.start_time } ∧
      mfind s2.user_states 2 = some UserOperationState.Idle ∧
      s2.total_staked = demo1.total_staked ∧
      s2.total_user = demo1.total_user :=
  C4_rollback_path demo1 2 1 unlockTs demo2 demoPending STAKE_AMOUNT demo2_unstake

/-- C7: for an account with a stake record and an Idle (or absent)
operation state, an unstake attempted one second before
start_time + lock_duration fails with the timing error and leaves the
durable state unchanged, and an unstake attempted exactly at
start_time + lock_duration succeeds, removing the record and returning the
full recorded amount. -/
theorem C7_lock_timing_boundary (s : ContractState) (account_id : Nat) (si : StakeInfo)
    (hrec : mfind s.staked_balances account_id = some si)
    (hstate : mfind s.user_states account_id = none ∨
      mfind s.user_states account_id = some UserOperationState.Idle)
    (hpos : 0 < si.start_time + s.lock_duration)
    (hbound : si.start_time + s.lock_duration < U64MOD)
    (hnodup : (mkeys s.staked_balances).Nodup) :
    unstake_exec s account_id 1 ((si.start_time + s.lock_duration - 1) * NANOSECONDS) =
      Except.error UnstakeErr.notYet ∧
    apply_unstake s account_id 1 ((si.start_time + s.lock_duration - 1) * NANOSECONDS) = s ∧
    ∃ s' : ContractState,
      unstake_exec s account_id 1 ((si.start_time + s.lock_duration) * NANOSECONDS) =
        Except.ok (s', { account_id := account_id, amount := si.amount, start_time := si.start_time }, si.amount) ∧
      mfind s'.staked_balances account_id = none := by
  have hstk : mfind s.user_states account_id ≠ some UserOperationState.Staking := by
    rcases hstate with h | h <;> simp [h]
  have hun : mfind s.user_states account_id ≠ some UserOperationState.Unstaking := by
    rcases hstate with h | h <;> simp [h]
  have hN : 0 < NANOSECONDS := by decide
  have hdiv1 : (si.start_time + s.lock_duration - 1) * NANOSECONDS / NANOSECONDS =
      si.start_time + s.lock_duration - 1 := Nat.mul_div_cancel _ hN
  have hdiv2 : (si.start_time + s.lock_duration) * NANOSECONDS / NANOSECONDS =
      si.start_time + s.lock_duration := Nat.mul_div_cancel _ hN
  have hraw1 := unstake_notYet s account_id
    ((si.start_time + s.lock_duration - 1) * NANOSECONDS) si hrec hstk hun hbound
    (by rw [hdiv1]; omega)
  have hraw2 := unstake_ok_of s account_id
    ((si.start_time + s.lock_duration) * NANOSECONDS) si hrec hstk hun hbound
    (le_of_eq hdiv2.symm)
  refine ⟨?_, ?_, ?_⟩
  · rw [unstake_exec, hraw1]
  · rw [apply_unstake, hraw1]
  · refine ⟨{ s with
        user_states := minsert s.user_states account_id UserOperationState.Unstaking
        staked_balances := mremove s.staked_balances account_id }, ?_, ?_⟩
    · rw [unstake_exec, hraw2]
    · exact mfind_mremove_self hnodup

/-- Witness for C7 at a concrete input: account 2 on `demo1`
(start_time 0, lock two weeks) fails one second early and succeeds exactly
at the unlock time. -/
theorem C7_lock_timing_boundary_witness :
    unstake_exec demo1 2 1 ((0 + demo1.lock_duration - 1) * NANOSECONDS) =
      Except.error UnstakeErr.notYet ∧
    apply_unstake demo1 2 1 ((0 + demo1.lock_duration - 1) * NANOSECONDS) = demo1 ∧
    ∃ s' : ContractState,
      unstake_exec demo1 2 1 ((0 + demo1.lock_duration) * NANOSECONDS) =
        Except.ok (s', { account_id := 2, amount := STAKE_AMOUNT, start_time := 0 }, STAKE_AMOUNT) ∧
      mfind s'.staked_balances 2 = none :=
  C7_lock_timing_boundary demo1 2 { amount := STAKE_AMOUNT, start_time := 0 } rfl
    (Or.inr rfl) (by decide) (by decide) (by decide)

/-- Demo state: fresh contract with staking paused. -/
def demoPaused : ContractState := { demo0 with stake_paused := true }

/-- Demo state (artificial): account 3 holds a record while its operation
lock is stuck at Staking, to exercise the Staking-conflict branches. -/
def demoStaking : ContractState :=
  { demo0 with
    staked_balances := [(3, { amount := STAKE_AMOUNT, start_time := 0 })]
    user_states := [(3, UserOperationState.Staking)] }

/-- C5 is false as stated in its mechanism clause: at `demo1` with block
timestamp 0 the timing check fails, yet the in-memory state at the panic
point already has account 2's operation lock set to Unstaking (it was Idle
before the call) — the timing check does not happen before any state
mutation.  The observable unchanged-ness of record and lock comes from the
panic aborting the receipt and reverting its writes. -/
theorem C5_counterexample_lock_mutated_before_timing_check :
    unstake demo1 2 1 0 =
      Raw.panic UnstakeErr.notYet
        { demo1 with user_states := [(2, UserOperationState.Unstaking)] } ∧
    mfind demo1.user_states 2 = some UserOperationState.Idle := by
  exact ⟨by rfl, by rfl⟩

/-- C5 (amended): every call failing with an authorization, state-conflict,
policy or not-found error (wrong token contract, stake paused, conflicting
operation state, wrong deposit amount, no stake record, lock duration not
elapsed) panics, and since the panic aborts the receipt and reverts its
writes, the durable structures — stake record, operation lock, counters —
are left unchanged.  In particular a timing-failed unstake leaves record and
lock untouched; this is due to the revert, not to the timing check
preceding all state mutation (the lock is set to Unstaking before the
check). -/
theorem C5_error_paths_leave_state_unchanged (s : ContractState)
    (predecessor sender_id amount account_id block_timestamp : Nat) :
    (predecessor ≠ s.token_contract →
      ft_on_transfer_exec s predecessor sender_id amount block_timestamp =
        Except.error DepositErr.wrongToken ∧
      apply_ft_on_transfer s predecessor sender_id amount block_timestamp = s) ∧
    (s.stake_paused = true →
      ft_on_transfer_exec s s.token_contract sender_id amount block_timestamp =
        Except.error DepositErr.paused ∧
      apply_ft_on_transfer s s.token_contract sender_id amount block_timestamp = s) ∧
    (s.stake_paused = false →
      mfind s.user_states sender_id = some UserOperationState.Staking →
      ft_on_transfer_exec s s.token_contract sender_id amount block_timestamp =
        Except.error DepositErr.stakingInProgress ∧
      apply_ft_on_transfer s s.token_contract sender_id amount block_timestamp = s) ∧
    (s.stake_paused = false →
      mfind s.user_states sender_id = some UserOperationState.Unstaking →
      ft_on_transfer_exec s s.token_contract sender_id amount block_timestamp =
        Except.error DepositErr.unstakingInProgress ∧
      apply_ft_on_transfer s s.token_contract sender_id amount block_timestamp = s) ∧
    (s.stake_paused = false →
      (mfind s.user_states sender_id = none ∨
        mfind s.user_states sender_id = some UserOperationState.Idle) →
      depositBase s sender_id block_timestamp + amount < U128MOD →
      depositBase s sender_id block_timestamp + amount ≠ s.stake_amount →
      ft_on_transfer_exec s s.token_contract sender_id amount block_timestamp =
        Except.error DepositErr.wrongAmount ∧
      apply_ft_on_transfer s s.token_contract sender_id amount block_timestamp = s) ∧
    (mfind s.staked_balances account_id = none →
      unstake_exec s account_id 1 block_timestamp = Except.error UnstakeErr.noStake ∧
      apply_unstake s account_id 1 block_timestamp = s) ∧
    (∀ si : StakeInfo, mfind s.staked_balances account_id = some si →
      (mfind s.user_states account_id = none ∨
        mfind s.user_states account_id = some UserOperationState.Idle) →
      si.start_time + s.lock_duration < U64MOD →
      block_timestamp / NANOSECONDS < si.start_time + s.lock_duration →
      unstake_exec s account_id 1 block_timestamp = Except.error UnstakeErr.notYet ∧
      apply_unstake s account_id 1 block_timestamp = s) := by
  refine ⟨?_, ?_, ?_, ?_, ?_, ?_, ?_⟩
  · intro h
    have hraw := ft_on_transfer_wrongToken s predecessor sender_id amount block_timestamp h
    exact ⟨by rw [ft_on_transfer_exec, hraw], by rw [apply_ft_on_transfer, hraw]⟩
  · intro h
    have hraw := ft_on_transfer_paused s sender_id amount block_timestamp h
    exact ⟨by rw [ft_on_transfer_exec, hraw], by rw [apply_ft_on_transfer, hraw]⟩
  · intro hp h
    have hraw := ft_on_transfer_staking_conflict s sender_id amount block_timestamp hp h
    exact ⟨by rw [ft_on_transfer_exec, hraw], by rw [apply_ft_on_transfer, hraw]⟩
  · intro hp h
    have hraw := ft_on_transfer_unstaking_conflict s sender_id amount block_timestamp hp h
    exact ⟨by rw [ft_on_transfer_exec, hraw], by rw [apply_ft_on_transfer, hraw]⟩
  · intro hp hstate hlt hne
    have hstk : mfind s.user_states sender_id ≠ some UserOperationState.Staking := by
      rcases hstate with h | h <;> simp [h]
    have hun : mfind s.user_states sender_id ≠ some UserOperationState.Unstaking := by
      rcases hstate with h | h <;> simp [h]
    have hraw := ft_on_transfer_wrongAmount s sender_id amount block_timestamp hp hstk hun
      hlt hne
    exact ⟨by rw [ft_on_transfer_exec, hraw], by rw [apply_ft_on_transfer, hraw]⟩
  · intro h
    have hraw := unstake_noStake s account_id block_timestamp h
    exact ⟨by rw [unstake_exec, hraw], by rw [apply_unstake, hraw]⟩
  · intro si hrec hstate hbound hlt
    have hstk : mfind s.user_states account_id ≠ some UserOperationState.Staking := by
      rcases hstate with h | h <;> simp [h]
    have hun : mfind s.user_states account_id ≠ some UserOperationState.Unstaking := by
      rcases hstate with h | h <;> simp [h]
    have hraw := unstake_notYet s account_id block_timestamp si hrec hstk hun hbound hlt
    exact ⟨by rw [unstake_exec, hraw], by rw [apply_unstake, hraw]⟩

/-- Witness for C5 (amended), exercising all six error classes at concrete
states: wrong token and wrong amount and missing record on the fresh
contract, paused contract, Staking and Unstaking conflicts, and a
timing-failed unstake on `demo1`. -/
theorem C5_error_paths_leave_state_unchanged_witness :
    (ft_on_transfer_exec demo0 9 2 STAKE_AMOUNT 0 = Except.error DepositErr.wrongToken ∧
      apply_ft_on_transfer demo0 9 2 STAKE_AMOUNT 0 = demo0) ∧
    (ft_on_transfer_exec demoPaused demoPaused.token_contract 2 STAKE_AMOUNT 0 =
        Except.error DepositErr.paused ∧
      apply_ft_on_transfer demoPaused demoPaused.token_contract 2 STAKE_AMOUNT 0 =
        demoPaused) ∧
    (ft_on_transfer_exec demoStaking demoStaking.token_contract 3 STAKE_AMOUNT 0 =
        Except.error DepositErr.stakingInProgress ∧
      apply_ft_on_transfer demoStaking demoStaking.token_contract 3 STAKE_AMOUNT 0 =
        demoStaking) ∧
    (ft_on_transfer_exec demo2 demo2.token_contract 2 STAKE_AMOUNT 0 =
        Except.error DepositErr.unstakingInProgress ∧
      apply_ft_on_transfer demo2 demo2.token_contract 2 STAKE_AMOUNT 0 = demo2) ∧
    (ft_on_transfer_exec demo0 demo0.token_contract 2 1 0 =
        Except.error DepositErr.wrongAmount ∧
      apply_ft_on_transfer demo0 demo0.token_contract 2 1 0 = demo0) ∧
    (unstake_exec demo0 5 1 0 = Except.error UnstakeErr.noStake ∧
      apply_unstake demo0 5 1 0 = demo0) ∧
    (unstake_exec demo1 2 1 0 = Except.error UnstakeErr.notYet ∧
      apply_unstake demo1 2 1 0 = demo1) := by
  refine ⟨?_, ?_, ?_, ?_, ?_, ?_, ?_⟩
  · exact (C5_error_paths_leave_state_unchanged demo0 9 2 STAKE_AMOUNT 5 0).1 (by decide)
  · exact (C5_error_paths_leave_state_unchanged demoPaused 9 2 STAKE_AMOUNT 5 0).2.1 rfl
  · exact (C5_error_paths_leave_state_unchanged demoStaking 9 3 STAKE_AMOUNT 5 0).2.2.1
      rfl rfl
  · exact (C5_error_paths_leave_state_unchanged demo2 9 2 STAKE_AMOUNT 5 0).2.2.2.1 rfl rfl
  · exact (C5_error_paths_leave_state_unchanged demo0 9 2 1 5 0).2.2.2.2.1 rfl
      (Or.inl rfl) (by decide) (by decide)
  · exact (C5_error_paths_leave_state_unchanged demo0 9 2 1 5 0).2.2.2.2.2.1 rfl
  · exact (C5_error_paths_leave_state_unchanged demo1 9 2 1 2 0).2.2.2.2.2.2
      { amount := STAKE_AMOUNT, start_time := 0 } rfl (Or.inr rfl) (by decide) (by decide)

/-- C6: per-account exclusivity: in every reachable state no account's
lock shows Staking (deposits complete synchronously, so no pending deposit
is ever observable) and there is at most one in-flight withdrawal per
account; a deposit arriving while the account's state is Unstaking is
rejected, and an unstake while the state is Staking is rejected. -/
theorem C6_per_account_exclusivity :
    (∀ m : Model, Reachable m →
      (∀ a : AccountId, mfind m.cs.user_states a ≠ some UserOperationState.Staking) ∧
      (m.pending.map PendingCb.account_id).Nodup) ∧
    (∀ (s : ContractState) (sender_id amount block_timestamp : Nat),
      s.stake_paused = false →
      mfind s.user_states sender_id = some UserOperationState.Unstaking →
      ft_on_transfer_exec s s.token_contract sender_id amount block_timestamp =
        Except.error DepositErr.unstakingInProgress) ∧
    (∀ (s : ContractState) (account_id block_timestamp : Nat) (si : StakeInfo),
      mfind s.staked_balances account_id = some si →
      mfind s.user_states account_id = some UserOperationState.Staking →
      unstake_exec s account_id 1 block_timestamp =
        Except.error UnstakeErr.stakingInProgress) := by
  refine ⟨?_, ?_, ?_⟩
  · intro m hr
    obtain ⟨-, -, -, -, -, -, -, -, hnost, hpnd⟩ := reachable_inv hr
    exact ⟨hnost, hpnd⟩
  · intro s sender_id amount block_timestamp hp h
    rw [ft_on_transfer_exec,
      ft_on_transfer_unstaking_conflict s sender_id amount block_timestamp hp h]
  · intro s account_id block_timestamp si hrec h
    rw [unstake_exec, unstake_staking_conflict s account_id block_timestamp si hrec h]

/-- Witness for C6 at concrete states: the mid-withdrawal state `demo2`
(no Staking lock observable; deposit rejected) and the artificial
Staking-locked state (unstake rejected). -/
theorem C6_per_account_exclusivity_witness :
    (∀ a : AccountId, mfind demo2.user_states a ≠ some UserOperationState.Staking) ∧
    ft_on_transfer_exec demo2 demo2.token_contract 2 STAKE_AMOUNT 0 =
      Except.error DepositErr.unstakingInProgress ∧
    unstake_exec demoStaking 3 1 0 = Except.error UnstakeErr.stakingInProgress := by
  refine ⟨?_, ?_, ?_⟩
  · exact (C6_per_account_exclusivity.1 ⟨demo2, [demoPending]⟩ demo2_reachable).1
  · exact C6_per_account_exclusivity.2.1 demo2 2 STAKE_AMOUNT 0 rfl rfl
  · exact C6_per_account_exclusivity.2.2 demoStaking 3 0
      { amount := STAKE_AMOUNT, start_time := 0 } rfl rfl

/-- Demo state: fresh contract after account 2 deposits the full required
amount at block time 1 s, so the record's start_time is 1. -/
def demoOv0 : ContractState :=
  { demo0 with
    staked_balances := [(2, { amount := STAKE_AMOUNT, start_time := 1 })]
    user_states := [(2, UserOperationState.Idle)]
    total_staked := STAKE_AMOUNT
    total_user := 1 }

/-- Demo state: `demoOv0` after the owner sets lock_duration to the u64
maximum, making the timing addition overflow for account 2. -/
def demoOv : ContractState := { demoOv0 with lock_duration := U64MOD - 1 }

theorem demoOv0_deposit :
    ft_on_transfer demo0 1 2 STAKE_AMOUNT NANOSECONDS = Raw.ok demoOv0 0 := by rfl

theorem demoOv_reachable : Reachable ⟨demoOv, []⟩ :=
  Reachable.step
    (Reachable.step (Reachable.init 0 1)
      (Step.deposit demo0 [] 1 2 STAKE_AMOUNT NANOSECONDS demoOv0 0 demoOv0_deposit))
    (Step.set_lock demoOv0 [] 0 1 (U64MOD - 1) demoOv () (by rfl))

/-- C9: the timing check in unstake evaluates start_time + lock_duration as
an unchecked u64 addition (panicking on overflow under the standard
overflow-checks release profile NEAR contracts are built with): given a
stake record and a non-conflicting lock state, unstake aborts with the
overflow panic iff start_time + lock_duration exceeds the u64 maximum;
set_lock_duration accepts any u64 value from the owner; and the reachable
configuration `demoOv` (deposit at 1 s, then lock_duration set to 2^64 - 1)
makes unstake abort at the timing check at every block timestamp. -/
theorem C9_timing_overflow :
    (∀ (s : ContractState) (lock_duration : Nat),
      set_lock_duration s s.owner_id 1 lock_duration =
        Raw.ok { s with lock_duration := lock_duration } ()) ∧
    (∀ (s : ContractState) (account_id block_timestamp : Nat) (si : StakeInfo),
      mfind s.staked_balances account_id = some si →
      (mfind s.user_states account_id = none ∨
        mfind s.user_states account_id = some UserOperationState.Idle) →
      (unstake_exec s account_id 1 block_timestamp =
          Except.error UnstakeErr.timeOverflow ↔
        U64MOD ≤ si.start_time + s.lock_duration)) ∧
    Reachable ⟨demoOv, []⟩ ∧
    (∀ block_timestamp : Nat,
      unstake_exec demoOv 2 1 block_timestamp = Except.error UnstakeErr.timeOverflow) := by
  have hgen : ∀ (s : ContractState) (account_id block_timestamp : Nat) (si : StakeInfo),
      mfind s.staked_balances account_id = some si →
      (mfind s.user_states account_id = none ∨
        mfind s.user_states account_id = some UserOperationState.Idle) →
      (unstake_exec s account_id 1 block_timestamp =
          Except.error UnstakeErr.timeOverflow ↔
        U64MOD ≤ si.start_time + s.lock_duration) := by
    intro s account_id block_timestamp si hrec hstate
    have hstk : mfind s.user_states account_id ≠ some UserOperationState.Staking := by
      rcases hstate with h | h <;> simp [h]
    have hun : mfind s.user_states account_id ≠ some UserOperationState.Unstaking := by
      rcases hstate with h | h <;> simp [h]
    constructor
    · intro hx
      by_contra hcon
      rw [not_le] at hcon
      by_cases hlt : block_timestamp / NANOSECONDS < si.start_time + s.lock_duration
      · rw [unstake_exec,
          unstake_notYet s account_id block_timestamp si hrec hstk hun hcon hlt] at hx
        simp at hx
      · rw [unstake_exec, unstake_ok_of s account_id block_timestamp si hrec hstk hun hcon
          (not_lt.mp hlt)] at hx
        simp at hx
    · intro hov
      rw [unstake_exec,
        unstake_timeOverflow s account_id block_timestamp si hrec hstk hun hov]
  refine ⟨?_, hgen, demoOv_reachable, ?_⟩
  · intro s lock_duration
    simp only [set_lock_duration]
    rw [if_neg (show ¬(1 : Nat) ≠ 1 from fun hc => hc rfl),
      if_neg (show ¬s.owner_id ≠ s.owner_id from fun hc => hc rfl)]
  · intro block_timestamp
    exact (hgen demoOv 2 block_timestamp { amount := STAKE_AMOUNT, start_time := 1 } rfl
      (Or.inr rfl)).mpr (by decide)

/-- Witness for C9 at concrete inputs: the owner sets the u64-maximum lock
duration on the fresh contract, and unstake on `demoOv` aborts with the
overflow panic at block timestamp 0. -/
theorem C9_timing_overflow_witness :
    set_lock_duration demo0 demo0.owner_id 1 (U64MOD - 1) =
      Raw.ok { demo0 with lock_duration := U64MOD - 1 } () ∧
    unstake_exec demoOv 2 1 0 = Except.error UnstakeErr.timeOverflow :=
  ⟨C9_timing_overflow.1 demo0 (U64MOD - 1), C9_timing_overflow.2.2.2 0⟩
